import Mathlib

/-!
Shallow embedding of the analytical core of the `disciplined-process-plugin`
repository (files `scripts/lib/degradation.py`, `scripts/lib/verification.py`,
`scripts/lib/plan_validation.py`), together with theorems settling the frozen
claims about it.

Modelling conventions:
* Python `datetime` instants are opaque; we model them as `Nat` tokens.  The
  pair `isoformat` / `fromisoformat` is modelled by a dedicated JSON leaf
  constructor (`JsonVal.dt`) holding the token: `isoformat` produces such a
  leaf, `fromisoformat` succeeds exactly on such leaves (a plain string models
  an unparseable timestamp text, raising `ValueError`, as
  `datetime.fromisoformat` does; a non-string raises `TypeError`).
* Python dicts are modelled as association lists in insertion order; updates
  to an existing key keep its position, new keys are appended (CPython dict
  semantics).
* Python exceptions are modelled with `Except PyErr`.
* Strings are processed as `List Char`; only ASCII whitespace/case behaviour
  is modelled, matching the ASCII inputs the heuristics are aimed at.
-/

set_option maxRecDepth 16384

namespace DP

/-- `DegradationLevel` enum from `degradation.py` (members in declaration
order; `auto()` assigns ordinals 1..5). -/
inductive DegradationLevel where
  | FULL
  | REDUCED
  | MANUAL
  | SAFE
  | RECOVERY
deriving DecidableEq, Repr

/-- The `.value` of each enum member (Python `auto()` numbering from 1). -/
def DegradationLevel.value : DegradationLevel → Nat
  | .FULL => 1
  | .REDUCED => 2
  | .MANUAL => 3
  | .SAFE => 4
  | .RECOVERY => 5

/-- The `.name` of each enum member. -/
def DegradationLevel.name : DegradationLevel → String
  | .FULL => "FULL"
  | .REDUCED => "REDUCED"
  | .MANUAL => "MANUAL"
  | .SAFE => "SAFE"
  | .RECOVERY => "RECOVERY"

/-- `DegradationLevel[name]` lookup; `none` models the `KeyError` raised for
an unknown member name. -/
def DegradationLevel.ofName (s : String) : Option DegradationLevel :=
  if s = "FULL" then some .FULL
  else if s = "REDUCED" then some .REDUCED
  else if s = "MANUAL" then some .MANUAL
  else if s = "SAFE" then some .SAFE
  else if s = "RECOVERY" then some .RECOVERY
  else none

/-- `HealthStatus` dataclass from `degradation.py`; `last_check` is an opaque
instant token. -/
structure HealthStatus where
  healthy : Bool
  component : String
  message : String
  last_check : Nat
  recovery_attempted : Bool := false
  recovery_succeeded : Bool := false
deriving DecidableEq, Repr

/-- `SystemState` dataclass from `degradation.py`; the `components` dict is an
association list in insertion order. -/
structure SystemState where
  level : DegradationLevel
  components : List (String × HealthStatus) := []
  last_transition : Nat := 0
  transition_reason : String := ""
  locked : Bool := false
  lock_reason : String := ""
deriving DecidableEq, Repr

/-- `compute_degradation_level` from `degradation.py` (lines 341-366), applied
to the values of the `components` dict.  The if-chain is evaluated top to
bottom, first match wins. -/
def compute_degradation_level (components : List HealthStatus) : DegradationLevel :=
  let unhealthy := components.filter (fun c => !c.healthy)
  if unhealthy.isEmpty then .FULL
  else
    let unhealthy_names := unhealthy.map (fun c => c.component)
    if unhealthy_names.contains "git" then .SAFE
    else if unhealthy_names.contains "config" then .MANUAL
    else if unhealthy_names.contains "task_tracker" then .REDUCED
    else if unhealthy_names.contains "beads_daemon" then .REDUCED
    else .FULL

/-- Abbreviation: some component named `n` in the list is unhealthy. -/
def unhealthyNamed (components : List HealthStatus) (n : String) : Bool :=
  components.any (fun c => !c.healthy && c.component == n)


end DP

namespace DP

theorem compute_level_contains_iff (components : List HealthStatus) (n : String) :
    ((components.filter (fun c => !c.healthy)).map (fun c => c.component)).contains n =
      unhealthyNamed components n := by
  rw [Bool.eq_iff_iff]
  simp only [unhealthyNamed, List.contains, List.elem_eq_mem, decide_eq_true_eq,
    List.mem_map, List.mem_filter,
    List.any_eq_true, Bool.not_eq_true', Bool.and_eq_true, beq_iff_eq]
  constructor
  · rintro ⟨c, ⟨hc, hh⟩, rfl⟩
    exact ⟨c, hc, hh, rfl⟩
  · rintro ⟨c, hc, hh, rfl⟩
    exact ⟨c, ⟨hc, hh⟩, rfl⟩

theorem compute_level_filter_isEmpty (components : List HealthStatus) :
    (components.filter (fun c => !c.healthy)).isEmpty =
      !(components.any (fun c => !c.healthy)) := by
  rw [Bool.eq_iff_iff]
  simp only [List.isEmpty_iff, List.filter_eq_nil_iff, Bool.not_eq_true',
    List.any_eq_false, Bool.not_eq_true]

/-- C1: the level computation policy.  The result is `FULL` when no component
is unhealthy; otherwise `SAFE` when the `git` component is unhealthy;
otherwise `MANUAL` when the `config` component is unhealthy; otherwise
`REDUCED` when the `task_tracker` or `beads_daemon` component is unhealthy;
otherwise `FULL` — evaluated in that order, first match wins.  Additionally,
with git healthy and both config and task_tracker unhealthy the result is
`MANUAL`, and an empty component map yields `FULL`. -/
theorem c1_compute_degradation_level_policy :
    (∀ components : List HealthStatus,
      compute_degradation_level components =
        if !(components.any (fun c => !c.healthy)) then .FULL
        else if unhealthyNamed components "git" then .SAFE
        else if unhealthyNamed components "config" then .MANUAL
        else if unhealthyNamed components "task_tracker" then .REDUCED
        else if unhealthyNamed components "beads_daemon" then .REDUCED
        else .FULL)
    ∧ (∀ g c t : HealthStatus,
        g.component = "git" → g.healthy = true →
        c.component = "config" → c.healthy = false →
        t.component = "task_tracker" → t.healthy = false →
        compute_degradation_level [g, c, t] = .MANUAL)
    ∧ compute_degradation_level [] = .FULL := by
  refine ⟨?_, ?_, rfl⟩
  · intro components
    show (let unhealthy := components.filter (fun c => !c.healthy)
      if unhealthy.isEmpty then DegradationLevel.FULL
      else
        let unhealthy_names := unhealthy.map (fun c => c.component)
        if unhealthy_names.contains "git" then .SAFE
        else if unhealthy_names.contains "config" then .MANUAL
        else if unhealthy_names.contains "task_tracker" then .REDUCED
        else if unhealthy_names.contains "beads_daemon" then .REDUCED
        else .FULL) = _
    simp only []
    rw [compute_level_filter_isEmpty,
        compute_level_contains_iff, compute_level_contains_iff,
        compute_level_contains_iff, compute_level_contains_iff]
  · intro g c t hg hgh hc hch ht hth
    unfold compute_degradation_level
    simp [List.filter, hgh, hch, hth, hg, hc, ht, List.isEmpty]

/-- Witness for C1 at concrete inputs: the three-component scenario evaluates
to `MANUAL` and the general characterisation is discharged on a sample map. -/
theorem c1_compute_degradation_level_policy_witness :
    compute_degradation_level
      [⟨true, "git", "", 0, false, false⟩,
       ⟨false, "config", "", 0, false, false⟩,
       ⟨false, "task_tracker", "", 0, false, false⟩] = .MANUAL :=
  c1_compute_degradation_level_policy.2.1
    ⟨true, "git", "", 0, false, false⟩
    ⟨false, "config", "", 0, false, false⟩
    ⟨false, "task_tracker", "", 0, false, false⟩
    rfl rfl rfl rfl rfl rfl

/-! ## Persistence: `_serialize_state`, `_deserialize_state`, `load_state` -/

/-- JSON values as stored in the state file.  `dt d` is a string that is a
valid ISO-8601 timestamp, abstracted to its instant token `d` (so
`isoformat` produces a `dt` leaf and `fromisoformat` succeeds exactly on
`dt` leaves); `str` is a string that is not a valid timestamp. -/
inductive JsonVal where
  | str (s : String)
  | bool (b : Bool)
  | num (n : Int)
  | dt (d : Nat)
  | obj (fields : List (String × JsonVal))

/-- The Python exception classes relevant to the persistence layer. -/
inductive PyErr where
  | keyError
  | valueError
  | typeError
  | attributeError
  | osError
deriving DecidableEq, Repr

/-- `data[k]` on a dict: `KeyError` when the key is missing. -/
def getItem (fields : List (String × JsonVal)) (k : String) : Except PyErr JsonVal :=
  match fields.lookup k with
  | some v => .ok v
  | none => .error .keyError

/-- `data.get(k, d)` on a dict. -/
def getDefault (fields : List (String × JsonVal)) (k : String) (d : JsonVal) : JsonVal :=
  (fields.lookup k).getD d

/-- A boolean-typed field.  The Python code assigns the stored value without
a type check; restricting to boolean leaves matches every value the
serializer can produce. -/
def asBool : JsonVal → Except PyErr Bool
  | .bool b => .ok b
  | _ => .error .typeError

/-- A string-typed field (same modelling note as `asBool`). -/
def asStr : JsonVal → Except PyErr String
  | .str s => .ok s
  | _ => .error .typeError

/-- `datetime.fromisoformat(v)`: succeeds on a valid timestamp string,
raises `ValueError` on any other string, `TypeError` on a non-string. -/
def fromisoformat : JsonVal → Except PyErr Nat
  | .dt d => .ok d
  | .str _ => .error .valueError
  | _ => .error .typeError

/-- `DegradationLevel[v]`: `KeyError` for any hashable non-member (including
non-member strings, booleans and numbers), `TypeError` for an unhashable
value (a dict). -/
def levelFromJson : JsonVal → Except PyErr DegradationLevel
  | .str s =>
    match DegradationLevel.ofName s with
    | some lv => .ok lv
    | none => .error .keyError
  | .obj _ => .error .typeError
  | _ => .error .keyError

/-- Serialization of one `HealthStatus` (the `components` entries of
`_serialize_state`, `degradation.py` lines 100-110). -/
def serializeHealthStatus (st : HealthStatus) : JsonVal :=
  .obj [("healthy", .bool st.healthy),
        ("component", .str st.component),
        ("message", .str st.message),
        ("last_check", .dt st.last_check),
        ("recovery_attempted", .bool st.recovery_attempted),
        ("recovery_succeeded", .bool st.recovery_succeeded)]

/-- `_serialize_state` from `degradation.py` (lines 92-111). -/
def _serialize_state (s : SystemState) : JsonVal :=
  .obj [("level", .str s.level.name),
        ("last_transition", .dt s.last_transition),
        ("transition_reason", .str s.transition_reason),
        ("locked", .bool s.locked),
        ("lock_reason", .str s.lock_reason),
        ("components", .obj (s.components.map
          (fun p => (p.1, serializeHealthStatus p.2))))]

/-- The per-component loop of `_deserialize_state` (lines 116-125), in dict
iteration (= insertion) order.  Field access order matches the keyword
arguments of the `HealthStatus(...)` call. -/
def deserializeComponents :
    List (String × JsonVal) → Except PyErr (List (String × HealthStatus))
  | [] => .ok []
  | (name, cd) :: rest =>
    match cd with
    | .obj cf => do
      let healthy ← getItem cf "healthy" >>= asBool
      let component ← getItem cf "component" >>= asStr
      let message ← getItem cf "message" >>= asStr
      let last_check ← getItem cf "last_check" >>= fromisoformat
      let recovery_attempted ← asBool (getDefault cf "recovery_attempted" (.bool false))
      let recovery_succeeded ← asBool (getDefault cf "recovery_succeeded" (.bool false))
      let tail ← deserializeComponents rest
      .ok ((name, ⟨healthy, component, message, last_check,
                   recovery_attempted, recovery_succeeded⟩) :: tail)
    | _ => .error .typeError

/-- `_deserialize_state` from `degradation.py` (lines 114-134).  The
components loop runs first (as in the source), then the `SystemState(...)`
arguments are evaluated in keyword order.  A non-dict top-level value makes
the first `data.get` raise `AttributeError`. -/
def _deserialize_state (data : JsonVal) : Except PyErr SystemState :=
  match data with
  | .obj fields => do
    let comps ←
      match getDefault fields "components" (.obj []) with
      | .obj cs => deserializeComponents cs
      | _ => .error .attributeError
    let levelv ← getItem fields "level"
    let level ← levelFromJson levelv
    let ltv ← getItem fields "last_transition"
    let last_transition ← fromisoformat ltv
    let transition_reason ← asStr (getDefault fields "transition_reason" (.str ""))
    let locked ← asBool (getDefault fields "locked" (.bool false))
    let lock_reason ← asStr (getDefault fields "lock_reason" (.str ""))
    .ok ⟨level, comps, last_transition, transition_reason, locked, lock_reason⟩
  | _ => .error .attributeError

/-- The possible outcomes of opening and JSON-parsing the state file. -/
inductive StateFile where
  | missing
  | osErr
  | badJson
  | content (v : JsonVal)

/-- `SystemState(level=DegradationLevel.FULL)` with defaulted fields;
`now` is the `datetime.now()` default for `last_transition`. -/
def defaultSystemState (now : Nat) : SystemState :=
  ⟨.FULL, [], now, "", false, ""⟩

/-- `load_state` from `degradation.py` (lines 68-80): the
`try`/`except (json.JSONDecodeError, KeyError, OSError)` wrapper around
reading and deserializing; only those three exception classes fall through
to the default state. -/
def load_state (now : Nat) (f : StateFile) : Except PyErr SystemState :=
  match f with
  | .missing => .ok (defaultSystemState now)
  | .osErr => .ok (defaultSystemState now)
  | .badJson => .ok (defaultSystemState now)
  | .content v =>
    match _deserialize_state v with
    | .ok s => .ok s
    | .error .keyError => .ok (defaultSystemState now)
    | .error .osError => .ok (defaultSystemState now)
    | .error e => .error e

theorem level_name_roundtrip (lv : DegradationLevel) :
    DegradationLevel.ofName lv.name = some lv := by
  cases lv <;> rfl

theorem except_ok_bind {α β ε : Type} (a : α) (f : α → Except ε β) :
    (Except.ok a : Except ε α) >>= f = f a := rfl

theorem components_roundtrip (l : List (String × HealthStatus)) :
    deserializeComponents (l.map (fun p => (p.1, serializeHealthStatus p.2))) = .ok l := by
  induction l with
  | nil => rfl
  | cons p rest ih =>
    simp only [serializeHealthStatus] at ih
    simp [List.map_cons, deserializeComponents, serializeHealthStatus,
      getItem, getDefault, List.lookup, ih, asBool, asStr, fromisoformat,
      except_ok_bind]

/-- C5: serialization round-trip — for every `SystemState` `s`,
deserializing the serialized form yields exactly `s` (all fields, including
every entry of the components map with all `HealthStatus` fields). -/
theorem c5_serialize_roundtrip (s : SystemState) :
    _deserialize_state (_serialize_state s) = .ok s := by
  simp [_serialize_state, _deserialize_state, getItem, getDefault,
    List.lookup, levelFromJson, level_name_roundtrip, fromisoformat,
    asStr, asBool, components_roundtrip, except_ok_bind]

/-- Counterexample to C7: a persisted state whose `last_transition` value is
a string that is not a valid ISO timestamp makes `load_state` raise
`ValueError` — `datetime.fromisoformat` raises `ValueError`, which is not in
the caught tuple `(json.JSONDecodeError, KeyError, OSError)` — rather than
fall back to the default state. -/
theorem c7_counterexample_bad_timestamp :
    load_state 0 (.content (.obj
      [("level", .str "FULL"),
       ("last_transition", .str "not-a-timestamp")])) = .error .valueError := rfl

/-- C7 (amended): a missing state file, an `OSError` while reading, corrupt
JSON, and any deserialization failure raising `KeyError` (missing keys,
unknown level names) all make `load_state` return the default `FULL` state
with an empty components map; a successful deserialization is returned as
is.  (An unparseable timestamp, by contrast, raises `ValueError`, which
`load_state` does not catch — see the counterexample.) -/
theorem c7_load_state_fallback (now : Nat) :
    load_state now .missing = .ok (defaultSystemState now)
  ∧ load_state now .osErr = .ok (defaultSystemState now)
  ∧ load_state now .badJson = .ok (defaultSystemState now)
  ∧ (∀ v : JsonVal, _deserialize_state v = .error .keyError →
      load_state now (.content v) = .ok (defaultSystemState now))
  ∧ (∀ v : JsonVal, ∀ s : SystemState, _deserialize_state v = .ok s →
      load_state now (.content v) = .ok s) := by
  refine ⟨rfl, rfl, rfl, ?_, ?_⟩
  · intro v h
    simp [load_state, h]
  · intro v s h
    simp [load_state, h]

/-- Witness for C7 (amended): a state file holding the empty JSON object is
missing the `level` key, so deserialization raises `KeyError` and
`load_state` returns the default state. -/
theorem c7_load_state_fallback_witness :
    load_state 7 (.content (.obj [])) = .ok (defaultSystemState 7) :=
  (c7_load_state_fallback 7).2.2.2.1 (.obj []) rfl

/-! ## `run_health_checks` and the lock -/

/-- CPython dict update `m[k] = v` on an association list: the first binding
of `k` is replaced in place, otherwise the binding is appended.  (Python
dicts cannot hold duplicate keys; on key-unique lists this is exactly the
dict behaviour.) -/
def dictSet : List (String × HealthStatus) → String → HealthStatus →
    List (String × HealthStatus)
  | [], k, v => [(k, v)]
  | p :: rest, k, v => if p.1 = k then (k, v) :: rest else p :: dictSet rest k v

/-- `transition_to` from `degradation.py` (lines 369-379): a locked state is
returned unchanged; otherwise `level`, `last_transition` and
`transition_reason` are updated when the level actually changes. -/
def transition_to (now : Nat) (state : SystemState) (new_level : DegradationLevel)
    (reason : String) : SystemState :=
  if state.locked then state
  else if state.level ≠ new_level then
    { state with level := new_level, last_transition := now,
                 transition_reason := reason }
  else state

/-- The ambient environment of one `run_health_checks` cycle: the fresh
result of each health probe, whether the configured tracker requires the
daemon probe, the outcome of each component's recovery action, the re-probe
result after a successful recovery, and the current time.  `run_health_checks`
performs I/O through exactly these channels. -/
structure ProbeEnv where
  configCheck : HealthStatus
  gitCheck : HealthStatus
  trackerCheck : HealthStatus
  daemonCheck : HealthStatus
  daemonApplicable : Bool
  recoverySucceeds : String → Bool
  recheck : String → HealthStatus
  now : Nat

/-- The keys of the `recovery_actions` dispatch dict in `attempt_recovery`
(`degradation.py` lines 256-263). -/
def recoveryComponents : List String := ["task_tracker", "git", "config", "beads_daemon"]

/-- `attempt_recovery` (lines 256-271): components outside the dispatch dict
never recover; otherwise the component-specific action's outcome is given by
the environment. -/
def attempt_recovery (env : ProbeEnv) (component : String) : Bool :=
  if recoveryComponents.contains component then env.recoverySucceeds component else false

/-- One iteration of the recovery loop of `run_health_checks` (lines
414-430) for a snapshot entry `(key, c)` with `c` unhealthy: if recovery was
not yet attempted, the stored status gets its recovery flags set, and on
success the component is re-probed and its map entry replaced by the fresh
result.  (The source sets the flags by mutating the status object in place;
this is modelled as a keyed update at the entry's key.) -/
def recoveryStep (env : ProbeEnv) (m : List (String × HealthStatus))
    (entry : String × HealthStatus) : List (String × HealthStatus) :=
  let c := entry.2
  if !c.recovery_attempted then
    let succeeded := attempt_recovery env c.component
    let m1 := dictSet m entry.1
      { c with recovery_attempted := true, recovery_succeeded := succeeded }
    if succeeded then dictSet m1 c.component (env.recheck c.component) else m1
  else m

/-- The recovery loop (lines 414-430): iterate over a snapshot of the
currently unhealthy components. -/
def recoveryPass (env : ProbeEnv) (m : List (String × HealthStatus)) :
    List (String × HealthStatus) :=
  (m.filter (fun p => !p.2.healthy)).foldl (recoveryStep env) m

/-- `_build_transition_reason` from `degradation.py` (lines 444-454). -/
def _build_transition_reason (state : SystemState) (new_level : DegradationLevel) :
    String :=
  let unhealthy := (state.components.map Prod.snd).filter (fun c => !c.healthy)
  if new_level = .FULL then "All components healthy"
  else if unhealthy.isEmpty then "Transitioning to " ++ new_level.name
  else "Issues with: " ++ String.intercalate ", " (unhealthy.map (fun c => c.component))

/-- The fixed battery of checks run by `run_health_checks` (lines 394-403):
config, git, task tracker, and — only when the configured tracker requires
it — the beads daemon. -/
def runChecksBattery (env : ProbeEnv) : List HealthStatus :=
  [env.configCheck, env.gitCheck, env.trackerCheck] ++
    (if env.daemonApplicable then [env.daemonCheck] else [])

/-- Step 3 of `run_health_checks` (lines 406-407): each fresh check replaces
the entry under its component id. -/
def postCheckComponents (env : ProbeEnv) (m : List (String × HealthStatus)) :
    List (String × HealthStatus) :=
  (runChecksBattery env).foldl (fun m c => dictSet m c.component c) m

/-- The components map at the end of a `run_health_checks` cycle starting
from level `lvl` and map `m0`: fresh checks applied, then — only when the
candidate level is stricter than `lvl` — the recovery loop. -/
def cycleComponents (env : ProbeEnv) (lvl : DegradationLevel)
    (m0 : List (String × HealthStatus)) : List (String × HealthStatus) :=
  let comps := postCheckComponents env m0
  let nl := compute_degradation_level (comps.map Prod.snd)
  if nl.value > lvl.value then recoveryPass env comps else comps

/-- The candidate level at the end of a cycle (recomputed after recovery
when recovery ran, lines 409-433). -/
def cycleLevel (env : ProbeEnv) (lvl : DegradationLevel)
    (m0 : List (String × HealthStatus)) : DegradationLevel :=
  let comps := postCheckComponents env m0
  let nl := compute_degradation_level (comps.map Prod.snd)
  if nl.value > lvl.value then
    compute_degradation_level ((recoveryPass env comps).map Prod.snd)
  else nl

/-- `run_health_checks` from `degradation.py` (lines 385-441), between
`load_state` and `save_state`: the loaded state is the argument, the probe
and recovery outcomes come from the environment. -/
def run_health_checks (env : ProbeEnv) (state : SystemState) : SystemState :=
  let comps2 := cycleComponents env state.level state.components
  let nl2 := cycleLevel env state.level state.components
  let state2 := { state with components := comps2 }
  if nl2 ≠ state2.level then
    transition_to env.now state2 nl2 (_build_transition_reason state2 nl2)
  else state2

theorem transition_to_locked (now : Nat) (s : SystemState)
    (nl : DegradationLevel) (r : String) (h : s.locked = true) :
    transition_to now s nl r = s := by
  simp [transition_to, h]

theorem transition_to_components (now : Nat) (s : SystemState)
    (nl : DegradationLevel) (r : String) :
    (transition_to now s nl r).components = s.components := by
  unfold transition_to
  split_ifs <;> rfl

theorem lookup_dictSet (m : List (String × HealthStatus)) (k1 : String)
    (v : HealthStatus) (k : String) :
    (dictSet m k1 v).lookup k = if k = k1 then some v else m.lookup k := by
  induction m with
  | nil =>
    by_cases h : k = k1
    · simp [dictSet, List.lookup, h]
    · have hk : (k == k1) = false := by
        simp [h]
      simp [dictSet, List.lookup, h, hk]
  | cons p rest ih =>
    by_cases h1 : p.1 = k1
    · by_cases h2 : k = k1
      · simp [dictSet, h1, List.lookup, h2]
      · have hp : (k == p.1) = false := by
          simp [h1, h2]
        have hk : (k == k1) = false := by
          simp [h2]
        simp [dictSet, h1, List.lookup, h2, hp, hk]
    · by_cases h2 : k = p.1
      · have hk : ¬ k = k1 := by
          rw [h2]
          exact h1
        simp [dictSet, h1, List.lookup, h2, hk]
      · have hp : (k == p.1) = false := by
          simp [h2]
        simp [dictSet, h1, List.lookup, hp, ih]

theorem lookup_dictSet_isSome (m : List (String × HealthStatus)) (k1 : String)
    (v : HealthStatus) (k : String) (h : (m.lookup k).isSome = true) :
    ((dictSet m k1 v).lookup k).isSome = true := by
  rw [lookup_dictSet]
  split <;> simp [h]

theorem recoveryStep_lookup_isSome (env : ProbeEnv)
    (m : List (String × HealthStatus)) (entry : String × HealthStatus)
    (k : String) (h : (m.lookup k).isSome = true) :
    ((recoveryStep env m entry).lookup k).isSome = true := by
  unfold recoveryStep
  dsimp only
  split_ifs <;>
    first
      | exact lookup_dictSet_isSome _ _ _ _ (lookup_dictSet_isSome _ _ _ _ h)
      | exact lookup_dictSet_isSome _ _ _ _ h
      | exact h

theorem foldl_recoveryStep_lookup_isSome (env : ProbeEnv)
    (l : List (String × HealthStatus)) (m : List (String × HealthStatus))
    (k : String) (h : (m.lookup k).isSome = true) :
    ((l.foldl (recoveryStep env) m).lookup k).isSome = true := by
  induction l generalizing m with
  | nil => exact h
  | cons a l ih =>
    exact ih _ (recoveryStep_lookup_isSome env m a k h)

theorem foldl_dictSet_lookup_isSome (l : List HealthStatus)
    (m : List (String × HealthStatus)) (k : String)
    (h : (m.lookup k).isSome = true) :
    ((l.foldl (fun m c => dictSet m c.component c) m).lookup k).isSome = true := by
  induction l generalizing m with
  | nil => exact h
  | cons a l ih =>
    exact ih _ (lookup_dictSet_isSome _ _ _ _ h)

theorem foldl_dictSet_member_isSome (l : List HealthStatus)
    (m : List (String × HealthStatus)) (c : HealthStatus) (hc : c ∈ l) :
    ((l.foldl (fun m c => dictSet m c.component c) m).lookup c.component).isSome
      = true := by
  induction l generalizing m with
  | nil => cases hc
  | cons a l ih =>
    rcases List.mem_cons.mp hc with rfl | hmem
    · rw [List.foldl_cons]
      apply foldl_dictSet_lookup_isSome
      rw [lookup_dictSet]
      simp
    · exact ih _ hmem

theorem cycleComponents_lookup_isSome (env : ProbeEnv) (lvl : DegradationLevel)
    (m0 : List (String × HealthStatus)) (c : HealthStatus)
    (hc : c ∈ runChecksBattery env) :
    ((cycleComponents env lvl m0).lookup c.component).isSome = true := by
  unfold cycleComponents
  dsimp only
  have hbase : ((postCheckComponents env m0).lookup c.component).isSome = true :=
    foldl_dictSet_member_isSome _ _ _ hc
  split_ifs
  · exact foldl_recoveryStep_lookup_isSome env _ _ _ hbase
  · exact hbase

/-- C3: lock invariance.  For every state with `locked = true` and every
combination of probe, recovery and re-probe outcomes, `run_health_checks`
leaves `level`, `last_transition` and `transition_reason` unchanged (no
transition occurs), while the components map is still updated exactly as in
the corresponding unlocked run, and every probe that ran this cycle has an
entry in the resulting map. -/
theorem c3_lock_invariance (env : ProbeEnv) (s : SystemState)
    (h : s.locked = true) :
    (run_health_checks env s).level = s.level
  ∧ (run_health_checks env s).last_transition = s.last_transition
  ∧ (run_health_checks env s).transition_reason = s.transition_reason
  ∧ (run_health_checks env s).components =
      (run_health_checks env { s with locked := false }).components
  ∧ ∀ c ∈ runChecksBattery env,
      (((run_health_checks env s).components).lookup c.component).isSome = true := by
  have hlock2 : ∀ C : List (String × HealthStatus),
      ({ s with components := C } : SystemState).locked = true := fun _ => h
  have hrun : run_health_checks env s =
      { s with components := cycleComponents env s.level s.components } := by
    unfold run_health_checks
    dsimp only
    split_ifs with hne
    · exact transition_to_locked _ _ _ _ (hlock2 _)
    · rfl
  have hcomps2 : (run_health_checks env { s with locked := false }).components =
      cycleComponents env s.level s.components := by
    unfold run_health_checks
    dsimp only
    split_ifs with hne
    · rw [transition_to_components]
    · rfl
  refine ⟨by rw [hrun], by rw [hrun], by rw [hrun], by rw [hrun, hcomps2], ?_⟩
  intro c hc
  rw [hrun]
  exact cycleComponents_lookup_isSome env s.level s.components c hc

/-- Witness for C3: a concrete locked state at level `SAFE` with an
unhealthy git probe keeps level `SAFE`. -/
theorem c3_lock_invariance_witness :
    (run_health_checks
      ⟨⟨true, "config", "ok", 1, false, false⟩,
       ⟨false, "git", "down", 1, false, false⟩,
       ⟨true, "task_tracker", "ok", 1, false, false⟩,
       ⟨true, "beads_daemon", "ok", 1, false, false⟩,
       false, fun _ => false, fun n => ⟨false, n, "recheck", 2, false, false⟩, 9⟩
      ⟨.SAFE, [], 0, "", true, "manual hold"⟩).level = .SAFE :=
  (c3_lock_invariance _ _ rfl).1

/-! ## String machinery for `verification.py`

Text is processed as `List Char`.  Python's `\s` / `str.strip` whitespace is
modelled by the six ASCII whitespace characters; `\w` by ASCII alphanumerics
plus underscore; `.lower()` / `.upper()` by ASCII case maps.  Each regular
expression of the source is modelled by an explicit matcher; where the model
deviates from exact backtracking semantics in a corner case, the deviation
is noted at the definition. -/

/-- Python whitespace (`\s`, `str.strip`): space, tab, newline, carriage
return, vertical tab, form feed. -/
def isPyWs (c : Char) : Bool :=
  c = ' ' || c = '\t' || c = '\n' || c = '\r' ||
  c = Char.ofNat 11 || c = Char.ofNat 12

/-- `\w`: ASCII word character. -/
def isWordChar (c : Char) : Bool := c.isAlphanum || c = '_'

/-- `str.strip()`. -/
def stripL (cs : List Char) : List Char :=
  ((cs.dropWhile isPyWs).reverse.dropWhile isPyWs).reverse

/-- `str.split(sep)` for a single separator char: the result always has one
more part than the number of separators. -/
def splitOnChar (sep : Char) : List Char → List (List Char)
  | [] => [[]]
  | c :: rest =>
    match splitOnChar sep rest with
    | [] => [[]]
    | h :: t => if c = sep then [] :: h :: t else (c :: h) :: t

/-- `str.splitlines()` (modelled for `\n`-separated text): like splitting on
`\n` but without a trailing empty part, and `[]` for the empty string. -/
def splitlines (cs : List Char) : List (List Char) :=
  if cs.isEmpty then []
  else
    let parts := splitOnChar '\n' cs
    if cs.getLast? = some '\n' then parts.dropLast else parts

def toLowerL (cs : List Char) : List Char := cs.map Char.toLower

def toUpperL (cs : List Char) : List Char := cs.map Char.toUpper

/-- Literal prefix match; on success returns the remaining text.  `ci` picks
case-insensitive comparison (the `re.IGNORECASE` flag). -/
def matchLit (ci : Bool) : List Char → List Char → Option (List Char)
  | [], cs => some cs
  | _ :: _, [] => none
  | p :: ps, c :: cs =>
    if (if ci then p.toLower = c.toLower else p = c) then matchLit ci ps cs
    else none

/-- Python `sub in s` substring test. -/
def containsSub (pat : List Char) : List Char → Bool
  | [] => pat.isEmpty
  | c :: rest => (matchLit false pat (c :: rest)).isSome || containsSub pat rest

/-- Tokens of the simple sequential patterns used by the stub detector:
case-(in)sensitive literals, `\s+`, `\s*`, and a one-character class.  In
every pattern below each literal/class starts with a non-whitespace
character, so maximal-munch whitespace matching coincides with the regex
backtracking semantics. -/
inductive Tok where
  | lit (s : String)
  | ws1
  | ws0
  | oneOf (cs : String)

/-- Sequential token matching; on success returns the remaining text. -/
def matchToks (ci : Bool) : List Tok → List Char → Option (List Char)
  | [], cs => some cs
  | .lit s :: ts, cs => (matchLit ci s.data cs).bind (matchToks ci ts)
  | .ws1 :: ts, cs =>
    if (cs.takeWhile isPyWs).isEmpty then none
    else matchToks ci ts (cs.dropWhile isPyWs)
  | .ws0 :: ts, cs => matchToks ci ts (cs.dropWhile isPyWs)
  | .oneOf s :: ts, cs =>
    match cs with
    | [] => none
    | c :: rest =>
      if s.data.any (fun d => if ci then d.toLower = c.toLower else d = c) then
        matchToks ci ts rest
      else none

/-- `len(re.findall(pattern, text))` for the token patterns, counted as the
number of positions where a match starts.  For the stub patterns this equals
the non-overlapping `findall` count because no successful match span can
contain a later match start (each pattern is anchored by a literal that
cannot recur inside its own span). -/
def countToksMatches (ci : Bool) (ts : List Tok) : List Char → Nat
  | [] => 0
  | c :: rest =>
    (if (matchToks ci ts (c :: rest)).isSome then 1 else 0) +
      countToksMatches ci ts rest

/-- `re.search` for a position predicate: does it hold at any suffix? -/
def existsPos (p : List Char → Bool) : List Char → Bool
  | [] => p []
  | c :: rest => p (c :: rest) || existsPos p rest

/-- Does the predicate hold right after some `'\n'` (the non-initial
positions of `re.MULTILINE`'s `^`)? -/
def holdsAfterNl (p : List Char → Bool) : List Char → Bool
  | [] => false
  | c :: rest => (c = '\n' && p rest) || holdsAfterNl p rest

theorem matchLit_length (ci : Bool) (p cs r : List Char)
    (h : matchLit ci p cs = some r) : r.length + p.length = cs.length := by
  induction p generalizing cs with
  | nil =>
    simp only [matchLit, Option.some.injEq] at h
    subst h
    simp
  | cons a p ih =>
    cases cs with
    | nil => simp [matchLit] at h
    | cons c cs =>
      simp only [matchLit] at h
      by_cases hc : (if ci then a.toLower = c.toLower else a = c)
      · rw [if_pos hc] at h
        have := ih cs h
        simp only [List.length_cons]
        omega
      · rw [if_neg hc] at h
        exact absurd h (by simp)

theorem dropWhile_length_le (p : Char → Bool) (cs : List Char) :
    (cs.dropWhile p).length ≤ cs.length :=
  (List.dropWhile_sublist p (l := cs)).length_le

theorem takeWhile_length_le (p : Char → Bool) (cs : List Char) :
    (cs.takeWhile p).length ≤ cs.length :=
  (List.takeWhile_sublist p (l := cs)).length_le

/-- Split off the last non-`'\n'` character: `l = pre ++ d :: suf` with `d`
the last non-newline character of `l` (so `suf` is all `'\n'`s). -/
def splitAtLastNonNl : List Char → Option (List Char × Char × List Char)
  | [] => none
  | c :: rest =>
    match splitAtLastNonNl rest with
    | some (pre, d, suf) => some (c :: pre, d, suf)
    | none => if c ≠ '\n' then some ([], c, rest) else none

theorem splitAtLastNonNl_suffix_lt (l : List Char) (pre : List Char) (d : Char)
    (suf : List Char) (h : splitAtLastNonNl l = some (pre, d, suf)) :
    suf.length < l.length := by
  induction l generalizing pre with
  | nil => simp [splitAtLastNonNl] at h
  | cons c rest ih =>
    simp only [splitAtLastNonNl] at h
    cases hr : splitAtLastNonNl rest with
    | some t =>
      rw [hr] at h
      obtain ⟨p1, d1, s1⟩ := t
      simp only [Option.some.injEq, Prod.mk.injEq] at h
      obtain ⟨-, hd, hs⟩ := h
      subst hd
      subst hs
      exact Nat.lt_succ_of_lt (ih p1 hr)
    | none =>
      rw [hr] at h
      by_cases hc : c ≠ '\n'
      · rw [if_pos hc] at h
        simp only [Option.some.injEq, Prod.mk.injEq] at h
        obtain ⟨-, -, hs⟩ := h
        subst hs
        simp
      · rw [if_neg hc] at h
        cases h

/-- One match of `re.findall(r"return\s+(.+)", content)` starting at the
given position: the captured group and the text after the match.  When all
text after the whitespace run is end-of-string, backtracking shortens the
`\s+` so that `.+` captures the last non-newline whitespace character (that
capture is pure whitespace and never "meaningful"). -/
def matchReturnAt (cs : List Char) : Option (List Char × List Char) :=
  match matchLit false "return".data cs with
  | none => none
  | some r =>
    if (r.takeWhile isPyWs).isEmpty then none
    else
      match r.dropWhile isPyWs with
      | c :: tail =>
        some ((c :: tail).takeWhile (fun d => d ≠ '\n'),
              (c :: tail).dropWhile (fun d => d ≠ '\n'))
      | [] =>
        match r.takeWhile isPyWs with
        | [] => none
        | _ :: wrest =>
          match splitAtLastNonNl wrest with
          | some (_, d, suf) => some ([d], suf)
          | none => none

theorem matchReturnAt_rem_lt (cs cap rem : List Char)
    (h : matchReturnAt cs = some (cap, rem)) : rem.length < cs.length := by
  unfold matchReturnAt at h
  cases hm : matchLit false "return".data cs with
  | none => rw [hm] at h; cases h
  | some r =>
    rw [hm] at h
    dsimp only at h
    have hr : r.length + 6 = cs.length := matchLit_length false _ cs r hm
    split_ifs at h with hw
    cases hd : r.dropWhile isPyWs with
    | cons c tail =>
      rw [hd] at h
      simp only [Option.some.injEq, Prod.mk.injEq] at h
      obtain ⟨-, hrem⟩ := h
      subst hrem
      have h1 : ((c :: tail).dropWhile (fun d => decide (d ≠ '\n'))).length ≤
          (c :: tail).length := dropWhile_length_le _ _
      have h2 : (r.dropWhile isPyWs).length ≤ r.length := dropWhile_length_le _ _
      rw [hd] at h2
      omega
    | nil =>
      rw [hd] at h
      dsimp only at h
      cases ht : r.takeWhile isPyWs with
      | nil => rw [ht] at h; cases h
      | cons w wrest =>
        rw [ht] at h
        dsimp only at h
        cases hs : splitAtLastNonNl wrest with
        | none => rw [hs] at h; cases h
        | some t =>
          rw [hs] at h
          obtain ⟨p1, d1, s1⟩ := t
          simp only [Option.some.injEq, Prod.mk.injEq] at h
          obtain ⟨-, hrem⟩ := h
          subst hrem
          have h1 : s1.length < wrest.length := splitAtLastNonNl_suffix_lt _ _ _ _ hs
          have h2 : (r.takeWhile isPyWs).length ≤ r.length := takeWhile_length_le _ _
          rw [ht] at h2
          simp only [List.length_cons] at h2
          omega

/-- `re.findall(r"return\s+(.+)", content)`: the captured groups of the
successive non-overlapping matches, by structural recursion on a fuel that
bounds the number of scan steps.  By `matchReturnAt_rem_lt`, every step
strictly shrinks the text, so fuel equal to the text length never runs out. -/
def returnCapturesFuel : Nat → List Char → List (List Char)
  | 0, _ => []
  | _, [] => []
  | fuel + 1, c :: rest =>
    match matchReturnAt (c :: rest) with
    | some (cap, rem) => cap :: returnCapturesFuel fuel rem
    | none => returnCapturesFuel fuel rest

def returnCaptures (cs : List Char) : List (List Char) :=
  returnCapturesFuel cs.length cs

/-- The meaningfulness test applied to each captured return expression
(`verification.py` lines 200-207). -/
def meaningfulReturnCheck (r : List Char) : Bool :=
  let st := stripL r
  !(st == "None".data) && !(st == "pass".data) && !(st == "...".data) &&
  !(st == []) &&
  !containsSub "NotImplemented".data r &&
  !containsSub "TODO".data (toUpperL r) &&
  !containsSub "PLACEHOLDER".data (toUpperL r)

def has_meaningful_return (content : List Char) : Bool :=
  (returnCaptures content).any meaningfulReturnCheck

/-- Scan for `.*(?::|=>|\{)` within the current line. -/
def defTailSearch : List Char → Bool
  | [] => false
  | c :: rest =>
    if c = ':' || c = '{' then true
    else if c = '=' && rest.head? = some '>' then true
    else if c = '\n' then false
    else defTailSearch rest

def defKeywords : List String := ["def", "function", "class", "const", "let", "var"]

/-- A match of `(?:def|function|class|const|let|var)\s+\w+.*(?::|=>|\{)`
starting at this position (this pattern has no `re.IGNORECASE`). -/
def matchDefAt (cs : List Char) : Bool :=
  defKeywords.any (fun kw =>
    match matchLit false kw.data cs with
    | some rest =>
      if (rest.takeWhile isPyWs).isEmpty then false
      else
        match rest.dropWhile isPyWs with
        | [] => false
        | c :: rest2 => isWordChar c && defTailSearch rest2
    | none => false)

def has_definitions (content : List Char) : Bool := existsPos matchDefAt content

/-- `\breturn\b` at this position, given the preceding character. -/
def wordReturnAt (prev : Option Char) (cs : List Char) : Bool :=
  (match prev with
   | none => true
   | some c => !isWordChar c) &&
  (match matchLit false "return".data cs with
   | some rest =>
     match rest.head? with
     | none => true
     | some c => !isWordChar c
   | none => false)

def searchWordReturn : Option Char → List Char → Bool
  | _, [] => false
  | prev, c :: rest => wordReturnAt prev (c :: rest) || searchWordReturn (some c) rest

def has_return_statements (content : List Char) : Bool :=
  searchWordReturn none content

/-- Match count of the MULTILINE patterns `^\s*pass\s*$` and `^\s*\.\.\.\s*$`
(with `re.IGNORECASE`): one match per line whose lowercased stripped text is
the given word. -/
def anchoredLineCount (content : List Char) (word : List Char) : Nat :=
  ((splitOnChar '\n' content).filter
    (fun l => toLowerL (stripL l) == word)).length

def quoteChars : String := String.mk [Char.ofNat 34, Char.ofNat 39]

/-- The remaining `stub_patterns` of `detect_stub` (lines 220-231), as token
sequences, all matched with `re.IGNORECASE`. -/
def stubTokPatterns : List (List Tok) :=
  [[.lit "raise", .ws1, .lit "NotImplementedError"],
   [.lit "throw", .ws1, .lit "new", .ws1, .lit "Error", .ws0, .lit "(", .ws0,
    .oneOf quoteChars, .lit "Not", .ws1, .lit "implemented"],
   [.lit "TODO:", .ws0, .lit "implement"],
   [.lit "FIXME:", .ws0, .lit "implement"],
   [.lit ">", .ws0, .lit "TODO"],
   [.lit ">TODO"],
   [.lit ">", .ws0, .lit "PLACEHOLDER"],
   [.lit ">", .ws0, .lit "Coming soon"]]

/-- Total stub-indicator count (lines 233-237). -/
def stubPatternCount (content : List Char) : Nat :=
  anchoredLineCount content "pass".data +
  anchoredLineCount content "...".data +
  (stubTokPatterns.map (fun ts => countToksMatches true ts content)).sum

/-- The trailing alternation `(?:TODO|PLACEHOLDER|Coming soon)` of the
placeholder pattern. -/
def placeholderKeywordAt (cs : List Char) : Bool :=
  (matchLit true "TODO".data cs).isSome ||
  (matchLit true "PLACEHOLDER".data cs).isSome ||
  (matchLit true "Coming soon".data cs).isSome

/-- `\s*(?:return\s+)?(?:<div>|<>)?\s*(?:TODO|PLACEHOLDER|Coming soon)`
after the brace, trying each optional group both ways. -/
def placeholderAfterBrace (cs : List Char) : Bool :=
  let a := cs.dropWhile isPyWs
  let bs :=
    a :: (match matchToks true [.lit "return", .ws1] a with
          | some r => [r]
          | none => [])
  bs.any (fun b =>
    let ds :=
      b :: ((match matchLit true "<div>".data b with
             | some r => [r]
             | none => []) ++
            (match matchLit true "<>".data b with
             | some r => [r]
             | none => []))
    ds.any (fun d => placeholderKeywordAt (d.dropWhile isPyWs)))

/-- `.*\{` then the placeholder tail, within the current line (each `{` on
the line is a candidate split of the greedy `.*`). -/
def braceScan : List Char → Bool
  | [] => false
  | c :: rest =>
    if c = '\n' then false
    else (c = '{' && placeholderAfterBrace rest) || braceScan rest

def placeholderFromKw (cs : List Char) : Bool :=
  ["function", "const", "class"].any (fun kw =>
    match matchLit true kw.data cs with
    | some rest =>
      if (rest.takeWhile isPyWs).isEmpty then false
      else
        match rest.dropWhile isPyWs with
        | [] => false
        | c :: rest2 => isWordChar c && braceScan rest2
    | none => false)

/-- The placeholder pattern of lines 245-250 at one line-start position,
with the optional `export\s+` tried both ways (`re.IGNORECASE`). -/
def placeholderAtLineStart (cs : List Char) : Bool :=
  placeholderFromKw cs ||
    (match matchToks true [.lit "export", .ws1] cs with
     | some r => placeholderFromKw r
     | none => false)

/-- `re.search` of the placeholder pattern with MULTILINE `^`. -/
def placeholderSearch (content : List Char) : Bool :=
  placeholderAtLineStart content || holdsAfterNl placeholderAtLineStart content

/-- Stages 3-5 of `detect_stub` (lines 219-252): stub-indicator density and
the placeholder-definition pattern.  The float comparison
`stub_count / max(non_trivial_lines, 1) > 0.3` is modelled exactly as the
rational `10 * stub_count > 3 * max ntl 1`; for realistic counts the
double-precision comparison agrees with the rational one. -/
def detectStubLater (content : List Char) (code_lines : List (List Char)) : Bool :=
  let stub_count := stubPatternCount content
  let non_trivial_lines := (code_lines.filter (fun l => l.length > 5)).length
  if non_trivial_lines > 0 && 10 * stub_count > 3 * max non_trivial_lines 1 then true
  else placeholderSearch content

/-- One "meaningful content" code line (line 213). -/
def meaningfulContentLine (l : List Char) : Bool :=
  l.length > 15 && !containsSub "todo".data (toLowerL l) &&
    !containsSub "pass".data (toLowerL l)

/-- The "code lines" of `detect_stub` (lines 178-186): stripped nonempty
lines that do not start with `#`, `//` or `*`. -/
def codeLines (content : List Char) : List (List Char) :=
  (((splitlines content).map stripL).filter (fun l => !l.isEmpty)).filter (fun l =>
    !(matchLit false "#".data l).isSome && !(matchLit false "//".data l).isSome &&
    !(matchLit false "*".data l).isSome)

/-- `detect_stub` from `verification.py` (lines 165-252), applied to the
file content (the `path.exists()` guard and the read are at the call sites;
`detect_stub`'s own re-read returns the same content). -/
def detect_stub (content : List Char) (threshold_lines : Nat) : Bool :=
  let code_lines := codeLines content
  if code_lines.length < threshold_lines then
    if has_definitions content && has_return_statements content &&
        has_meaningful_return content then false
    else if !(code_lines.any meaningfulContentLine) then true
    else detectStubLater content code_lines
  else detectStubLater content code_lines

/-- A file of 9 code lines each of which is meaningful content (longer than
15 characters, no todo/pass) and which contains no `return` at all. -/
def c6WideFile : List Char :=
  (String.intercalate "\n" (List.replicate 9 "value = compute_result(41)") ++ "\n").data

/-- Counterexample to C6 as stated: with the default threshold 10, a file of
exactly `thresholdLines - 1 = 9` code lines and no meaningful return is NOT
classified a stub when some code line is meaningful content — the
line-threshold rule only fires when no code line is longer than 15
characters without containing todo/pass. -/
theorem c6_counterexample_meaningful_content :
    (codeLines c6WideFile).length = 10 - 1
  ∧ has_meaningful_return c6WideFile = false
  ∧ detect_stub c6WideFile 10 = false := by
  refine ⟨by decide, by decide, by decide⟩

/-- C6 (amended): with `thresholdLines > 0`: a file of exactly
`thresholdLines - 1` code lines with no meaningful return AND no meaningful
content line (no code line longer than 15 characters lacking "todo" and
"pass") is classified a stub; a file under the threshold that contains a
real definition with a body, a return statement, and a meaningful,
non-placeholder return value is classified not a stub. -/
theorem c6_stub_threshold_boundary :
    (∀ content : List Char, ∀ threshold : Nat, 0 < threshold →
      (codeLines content).length = threshold - 1 →
      has_meaningful_return content = false →
      (codeLines content).any meaningfulContentLine = false →
      detect_stub content threshold = true)
    ∧ (∀ content : List Char, ∀ threshold : Nat,
      (codeLines content).length < threshold →
      has_definitions content = true →
      has_return_statements content = true →
      has_meaningful_return content = true →
      detect_stub content threshold = false) := by
  constructor
  · intro content threshold hpos hlen hmr hmc
    have h1 : (codeLines content).length < threshold := by omega
    simp [detect_stub, h1, hmr, hmc]
  · intro content threshold hlt hd hr hmr
    simp [detect_stub, hlt, hd, hr, hmr]

/-- A 9-code-line file whose lines all mention "todo" (so none is
meaningful content) and which contains no return. -/
def c6TodoFile : List Char :=
  (String.intercalate "\n" (List.replicate 9 "todo item aaaaaaaaaa") ++ "\n").data

/-- A short file with a real definition and a meaningful return. -/
def c6DefFile : List Char := "def f():\n    return 42\n".data

/-- Witness for C6 (amended), discharging both halves at concrete files. -/
theorem c6_stub_threshold_boundary_witness :
    detect_stub c6TodoFile 10 = true ∧ detect_stub c6DefFile 10 = false :=
  ⟨c6_stub_threshold_boundary.1 c6TodoFile 10 (by decide) (by decide)
      (by decide) (by decide),
   c6_stub_threshold_boundary.2 c6DefFile 10 (by decide) (by decide)
      (by decide) (by decide)⟩

/-! ## Truth extraction (`extract_truths_from_description`) -/

/-- The text after the LAST occurrence of `target`. -/
def afterLastChar (target : Char) : List Char → Option (List Char)
  | [] => none
  | c :: rest =>
    match afterLastChar target rest with
    | some suf => some suf
    | none => if c = target then some rest else none

/-- `\s*\n` with greedy backtracking: consume leading whitespace up to and
including the LAST newline of the whitespace run; fail if the run holds no
newline. -/
def consumeWsThroughLastNl (cs : List Char) : Option (List Char) :=
  match afterLastChar '\n' (cs.takeWhile isPyWs) with
  | some suf => some (suf ++ cs.dropWhile isPyWs)
  | none => none

/-- Drop one leading newline if present (the `\n?` / `(?:\n|$)` tails). -/
def dropOneNl : List Char → List Char
  | [] => []
  | c :: t => if c = '\n' then t else c :: t

theorem dropOneNl_length_le (l : List Char) : (dropOneNl l).length ≤ l.length := by
  cases l with
  | nil => simp [dropOneNl]
  | cons c t =>
    simp only [dropOneNl]
    split_ifs <;> simp

/-- One segment `\s*[-*]\s*.+\n?` of a bullet block; returns the remaining
text.  A bullet followed only by whitespace-to-end is treated as no match
(regex backtracking would consume it, contributing a pure-whitespace bullet
that the post-processing strips and drops either way, with nothing after it
that could extend the block). -/
def bulletSegment (cs : List Char) : Option (List Char) :=
  match cs.dropWhile isPyWs with
  | c :: rest =>
    if c = '-' || c = '*' then
      match rest.dropWhile isPyWs with
      | [] => none
      | u => some (dropOneNl (u.dropWhile (fun d => d ≠ '\n')))
    else none
  | [] => none

/-- The `+` repetition of bullet segments, by fuel (a segment always
consumes at least its bullet character, so `cs.length + 1` steps suffice). -/
def bulletSegsRest : Nat → List Char → List Char
  | 0, cs => cs
  | fuel + 1, cs =>
    match bulletSegment cs with
    | some rest => bulletSegsRest fuel rest
    | none => cs

/-- The captured group `((?:\s*[-*]\s*.+\n?)+)` at this position: at least
one segment, group text = everything consumed. -/
def bulletBlockAt (cs : List Char) : Option (List Char) :=
  match bulletSegment cs with
  | none => none
  | some _ =>
    let rest := bulletSegsRest (cs.length + 1) cs
    some (cs.take (cs.length - rest.length))

/-- A labelled criteria-block match at this position: the label pattern,
`\s*\n`, then the bullet group. -/
def criteriaBlockAt (label : List Char → Option (List Char)) (cs : List Char) :
    Option (List Char) :=
  match label cs with
  | none => none
  | some r1 =>
    match consumeWsThroughLastNl r1 with
    | none => none
    | some r2 => bulletBlockAt r2

/-- `re.search` for a labelled block: group 1 of the leftmost match. -/
def searchCriteriaBlock (label : List Char → Option (List Char)) :
    List Char → Option (List Char)
  | [] => criteriaBlockAt label []
  | c :: rest =>
    match criteriaBlockAt label (c :: rest) with
    | some g => some g
    | none => searchCriteriaBlock label rest

/-- Per-line bullet processing of a captured block (lines 97-102): strip,
keep lines starting with `-`/`*`, strip the leading `-* ` characters, drop
empties. -/
def bulletTextOfLine (l : List Char) : Option (List Char) :=
  match stripL l with
  | c :: restLine =>
    if c = '-' || c = '*' then
      let truth := stripL ((c :: restLine).dropWhile
        (fun d => d = '-' || d = '*' || d = ' '))
      if truth.isEmpty then none else some truth
    else none
  | [] => none

def bulletTexts (group : List Char) : List (List Char) :=
  (splitOnChar '\n' group).filterMap bulletTextOfLine

/-- One match of `re.findall(r"truth:\s*(.+?)(?:\n|$)", d, re.IGNORECASE)`
at this position: the capture and the text after the match.  The greedy
`\s*` crosses newlines, so the capture starts at the first non-whitespace
character and runs to its end of line; `(?:\n|$)` also consumes the
newline.  When only whitespace-to-end follows `truth:`, backtracking would
yield a pure-whitespace capture, dropped by the caller's strip-filter; it
is treated as no match (no later match can start inside the skipped
whitespace). -/
def matchTruthFieldAt (cs : List Char) : Option (List Char × List Char) :=
  match matchLit true "truth:".data cs with
  | none => none
  | some r =>
    match r.dropWhile isPyWs with
    | [] => none
    | u => some (u.takeWhile (fun d => d ≠ '\n'),
                 dropOneNl (u.dropWhile (fun d => d ≠ '\n')))

theorem matchTruthFieldAt_rem_lt (cs cap rem : List Char)
    (h : matchTruthFieldAt cs = some (cap, rem)) : rem.length < cs.length := by
  unfold matchTruthFieldAt at h
  cases hm : matchLit true "truth:".data cs with
  | none => rw [hm] at h; cases h
  | some r =>
    rw [hm] at h
    dsimp only at h
    have hr : r.length + 6 = cs.length := matchLit_length true _ cs r hm
    have hd : (r.dropWhile isPyWs).length ≤ r.length := dropWhile_length_le _ _
    cases hu : r.dropWhile isPyWs with
    | nil => rw [hu] at h; cases h
    | cons a u =>
      rw [hu] at h
      rw [hu] at hd
      dsimp only at h
      simp only [Option.some.injEq, Prod.mk.injEq] at h
      obtain ⟨-, hrem⟩ := h
      have h1 : (dropOneNl ((a :: u).dropWhile (fun d => decide (d ≠ '\n')))).length ≤
          ((a :: u).dropWhile (fun d => decide (d ≠ '\n'))).length :=
        dropOneNl_length_le _
      have h2 : ((a :: u).dropWhile (fun d => decide (d ≠ '\n'))).length ≤
          (a :: u).length := dropWhile_length_le _ _
      rw [← hrem] at *
      simp only [List.length_cons] at *
      omega

/-- `re.findall` of the truth-field pattern: successive non-overlapping
captures, by fuel; by `matchTruthFieldAt_rem_lt` each match strictly
shrinks the text, so fuel equal to the text length never runs out. -/
def truthFieldCapturesFuel : Nat → List Char → List (List Char)
  | 0, _ => []
  | _, [] => []
  | fuel + 1, c :: rest =>
    match matchTruthFieldAt (c :: rest) with
    | some (cap, rem) => cap :: truthFieldCapturesFuel fuel rem
    | none => truthFieldCapturesFuel fuel rest

def truthFieldCaptures (cs : List Char) : List (List Char) :=
  truthFieldCapturesFuel cs.length cs

/-- The Success-Criteria loop of lines 119-125: append each bullet text
that is nonempty and not already collected. -/
def scBulletsAccum : List (List Char) → List (List Char) → List (List Char)
  | [], acc => acc
  | l :: rest, acc =>
    match bulletTextOfLine l with
    | some truth =>
      if acc.contains truth then scBulletsAccum rest acc
      else scBulletsAccum rest (acc ++ [truth])
    | none => scBulletsAccum rest acc

def labelAC : List Char → Option (List Char) :=
  matchToks true [.lit "Acceptance", .ws1, .lit "Criteria:"]

def labelSC : List Char → Option (List Char) :=
  matchToks true [.lit "Success", .ws1, .lit "Criteria:"]

/-- `extract_truths_from_description` from `verification.py` (lines 78-127):
Acceptance-Criteria bullets (no de-duplication), then inline `truth:` field
values (no de-duplication), then Success-Criteria bullets de-duplicated
against everything collected so far. -/
def extract_truths_from_description (d : List Char) : List (List Char) :=
  let t1 :=
    match searchCriteriaBlock labelAC d with
    | some g => bulletTexts g
    | none => []
  let t2 := (truthFieldCaptures d).filterMap (fun t =>
    let s := stripL t
    if s.isEmpty then none else some s)
  let base := t1 ++ t2
  match searchCriteriaBlock labelSC d with
  | some g => scBulletsAccum (splitOnChar '\n' g) base
  | none => base

/-- First-seen-order de-duplicating merge: append the elements of `l` that
are not already present, each at most once (the spec's reading of the
Success-Criteria union). -/
def appendNewDedup (base l : List (List Char)) : List (List Char) :=
  l.foldl (fun acc x => if acc.contains x then acc else acc ++ [x]) base

theorem scBulletsAccum_eq_appendNewDedup (lines : List (List Char))
    (acc : List (List Char)) :
    scBulletsAccum lines acc =
      appendNewDedup acc (lines.filterMap bulletTextOfLine) := by
  induction lines generalizing acc with
  | nil => rfl
  | cons l rest ih =>
    simp only [scBulletsAccum, List.filterMap_cons]
    cases hb : bulletTextOfLine l with
    | none => exact ih acc
    | some truth =>
      simp only [appendNewDedup] at ih
      simp only [appendNewDedup, List.foldl_cons]
      by_cases hc : acc.contains truth = true
      · simp only [if_pos hc]
        exact ih acc
      · simp only [if_neg hc]
        exact ih (acc ++ [truth])

/-- Counterexample to C9 as stated: two identical inline `truth:` fields
are both returned — the Acceptance-Criteria and truth-field phases do not
de-duplicate, so a string can occur more than once. -/
theorem c9_counterexample_duplicate_truths :
    extract_truths_from_description "truth: x\ntruth: x".data =
      ["x".data, "x".data]
  ∧ ¬ (extract_truths_from_description "truth: x\ntruth: x".data).Nodup := by
  refine ⟨by decide, by decide⟩

/-- C9 (amended): `extract_truths_from_description` returns the
concatenation of the Acceptance-Criteria bullets and the stripped nonempty
inline `truth:` field values — neither de-duplicated — followed by the
first-seen-order de-duplicating merge of the Success-Criteria bullets
(each Success-Criteria bullet is added at most once and only when not
already present). -/
theorem c9_extract_truths_structure (d : List Char) :
    extract_truths_from_description d =
      appendNewDedup
        ((match searchCriteriaBlock labelAC d with
          | some g => bulletTexts g
          | none => []) ++
         (truthFieldCaptures d).filterMap (fun t =>
           let s := stripL t
           if s.isEmpty then none else some s))
        (match searchCriteriaBlock labelSC d with
         | some g => bulletTexts g
         | none => []) := by
  unfold extract_truths_from_description
  dsimp only
  cases hsc : searchCriteriaBlock labelSC d with
  | none => rfl
  | some g => exact scBulletsAccum_eq_appendNewDedup _ _

/-! ## Task verification (`verify_task`) -/

/-- `VerificationStatus` enum from `verification.py`. -/
inductive VerificationStatus where
  | VERIFIED
  | INCOMPLETE
  | FAILED
deriving DecidableEq, Repr

/-- `TruthResult` dataclass. -/
structure TruthResult where
  description : List Char
  status : String
deriving DecidableEq, Repr

/-- `ArtifactResult` dataclass (`exists` is a Lean keyword, hence
`exists_`). -/
structure ArtifactResult where
  path : String
  exists_ : Bool
  is_substantive : Bool := true
  is_stub : Bool := false
  line_count : Nat := 0
  details : String := ""
deriving DecidableEq, Repr

/-- `VerificationResult` dataclass; the `links` field is omitted because
`verify_task` always produces an empty links list. -/
structure VerificationResult where
  task_id : String
  status : VerificationStatus
  truths : List TruthResult
  artifacts : List ArtifactResult
  errors : List String
deriving DecidableEq, Repr

/-- The state of one path in the filesystem model: missing, existing but
unreadable (`read_text` raises `OSError`), or readable with content. -/
inductive FileState where
  | absent
  | unreadable
  | readable (content : List Char)

/-- The filesystem seen by verification: a map from path to state. -/
def FileSys := String → FileState

/-- `check_artifact_substance` from `verification.py` (lines 143-161): a
missing file yields all-false flags without error; an existing file is read
(`read_text` on an unreadable file raises, and this function has no
handler) and classified with `detect_stub` at the default threshold 10
(`detect_stub`'s own exists-check and re-read see the same filesystem, so
they return the same content). -/
def check_artifact_substance (fs : FileSys) (path : String) :
    Except PyErr ArtifactResult :=
  match fs path with
  | .absent => .ok ⟨path, false, false, false, 0, ""⟩
  | .unreadable => .error .osError
  | .readable content =>
    let is_stub := detect_stub content 10
    .ok ⟨path, true, !is_stub, is_stub, (splitlines content).length, ""⟩

/-- The `Artifacts?:` label of the artifact-block pattern (line 381). -/
def labelArtifacts (cs : List Char) : Option (List Char) :=
  match matchLit true "artifacts:".data cs with
  | some r => some r
  | none => matchLit true "artifact:".data cs

/-- The artifact loop of lines 384-393: each bullet is checked in order;
an exception from a check propagates, discarding the partial results (as
the Python loop does). -/
def mapExceptList {A B : Type} (f : A → Except PyErr B) :
    List A → Except PyErr (List B)
  | [] => .ok []
  | x :: xs => do
    let y ← f x
    let ys ← mapExceptList f xs
    .ok (y :: ys)

/-- `verify_task` from `verification.py` (lines 350-421) for a task with
the given id and description: truths are extracted and each marked `"?"`;
the `Artifacts:` bullet block is parsed, each bullet resolved against
`project_root` and checked with `check_artifact_substance` (an exception
aborts the loop and propagates — there is no handler); then the overall
status is classified (lines 395-412).  The source never appends to
`errors`, and always returns empty `links`. -/
def verify_task (fs : FileSys) (project_root : String) (task_id : String)
    (description : List Char) : Except PyErr VerificationResult := do
  let truth_strings := extract_truths_from_description description
  let truths := truth_strings.map (fun t => TruthResult.mk t "?")
  let artifact_paths :=
    match searchCriteriaBlock labelArtifacts description with
    | some g => bulletTexts g
    | none => []
  let artifact_results ← mapExceptList
    (fun p => check_artifact_substance fs (project_root ++ "/" ++ String.mk p))
    artifact_paths
  let errors : List String := []
  let has_failed_truths := truths.any (fun t => t.status == "fail")
  let has_missing_artifacts := artifact_results.any (fun a => !a.exists_)
  let has_stubs := artifact_results.any (fun a => a.is_stub)
  let has_unverified_truths := truths.any (fun t => t.status == "?")
  let status :=
    if !errors.isEmpty then VerificationStatus.FAILED
    else if has_failed_truths || has_missing_artifacts then VerificationStatus.FAILED
    else if has_stubs || has_unverified_truths then VerificationStatus.INCOMPLETE
    else if truths.length == 0 && artifact_results.length == 0 then
      VerificationStatus.INCOMPLETE
    else VerificationStatus.VERIFIED
  return ⟨task_id, status, truths, artifact_results, errors⟩

/-- The status classification as the claim words it: FAILED when an
internal error occurred, a truth failed, or an artifact is missing; else
INCOMPLETE when an artifact is a stub, a truth is unknown, or there are no
criteria at all; else VERIFIED. -/
def statusSpec (errors : List String) (truths : List TruthResult)
    (artifacts : List ArtifactResult) : VerificationStatus :=
  if errors ≠ [] ∨ truths.any (fun t => t.status == "fail") = true ∨
      artifacts.any (fun a => !a.exists_) = true then .FAILED
  else if artifacts.any (fun a => a.is_stub) = true ∨
      truths.any (fun t => t.status == "?") = true ∨
      (truths = [] ∧ artifacts = []) then .INCOMPLETE
  else .VERIFIED

theorem except_error_bind {A B : Type} (e : PyErr) (f : A → Except PyErr B) :
    (Except.error e : Except PyErr A) >>= f = .error e := rfl

theorem except_pure_eq {A : Type} (a : A) :
    (pure a : Except PyErr A) = .ok a := rfl

theorem mapExceptList_ok_of_all {A B : Type} (f : A → Except PyErr B) :
    ∀ l : List A, (∀ x ∈ l, ∃ y, f x = .ok y) →
      ∃ ys, mapExceptList f l = .ok ys := by
  intro l
  induction l with
  | nil => exact fun _ => ⟨[], rfl⟩
  | cons a l ih =>
    intro hall
    obtain ⟨y, hy⟩ := hall a (by simp)
    obtain ⟨ys, hys⟩ := ih (fun x hx => hall x (by simp [hx]))
    refine ⟨y :: ys, ?_⟩
    simp only [mapExceptList, hy, hys, except_ok_bind]

theorem mapExceptList_mem {A B : Type} (f : A → Except PyErr B) :
    ∀ (l : List A) (ys : List B), mapExceptList f l = .ok ys →
      ∀ y ∈ ys, ∃ x ∈ l, f x = .ok y := by
  intro l
  induction l with
  | nil =>
    intro ys h y hy
    simp only [mapExceptList, Except.ok.injEq] at h
    subst h
    cases hy
  | cons a l ih =>
    intro ys h y hy
    cases hfa : f a with
    | error e =>
      simp only [mapExceptList, hfa, except_error_bind] at h
      cases h
    | ok b =>
      simp only [mapExceptList, hfa, except_ok_bind] at h
      cases hrest : mapExceptList f l with
      | error e =>
        rw [hrest, except_error_bind] at h
        cases h
      | ok ys2 =>
        rw [hrest, except_ok_bind] at h
        simp only [Except.ok.injEq] at h
        subst h
        rcases List.mem_cons.mp hy with rfl | hy2
        · exact ⟨a, by simp, hfa⟩
        · obtain ⟨x, hx, hfx⟩ := ih ys2 hrest y hy2
          exact ⟨x, by simp [hx], hfx⟩

/-- C4: for every filesystem, project root, task and description on which
`verify_task` returns a result, the returned status is classified exactly
as the claim states: FAILED when an internal error occurred or a truth
failed or a listed artifact is missing; otherwise INCOMPLETE when an
artifact is a stub or a truth is unknown or there are no truths and no
artifacts at all; otherwise VERIFIED. -/
theorem c4_verify_task_status (fs : FileSys) (root id : String)
    (d : List Char) (r : VerificationResult)
    (h : verify_task fs root id d = .ok r) :
    r.status = statusSpec r.errors r.truths r.artifacts := by
  unfold verify_task at h
  dsimp only at h
  cases hm : mapExceptList
      (fun p => check_artifact_substance fs (root ++ "/" ++ String.mk p))
      (match searchCriteriaBlock labelArtifacts d with
       | some g => bulletTexts g
       | none => []) with
  | error e =>
    rw [hm, except_error_bind] at h
    cases h
  | ok arts =>
    rw [hm, except_ok_bind] at h
    simp only [except_pure_eq, Except.ok.injEq] at h
    subst h
    dsimp only
    by_cases h1 : (List.map (fun t => TruthResult.mk t "?")
        (extract_truths_from_description d)).any (fun t => t.status == "fail") = true <;>
    by_cases h2 : arts.any (fun a => !a.exists_) = true <;>
    by_cases h3 : arts.any (fun a => a.is_stub) = true <;>
    by_cases h4 : (List.map (fun t => TruthResult.mk t "?")
        (extract_truths_from_description d)).any (fun t => t.status == "?") = true <;>
    by_cases h5 : extract_truths_from_description d = [] <;>
    by_cases h6 : arts = [] <;>
    try simp_all [statusSpec, List.length_eq_zero]

/-- Witness for C4 at a concrete input: an empty description over an empty
filesystem yields an INCOMPLETE result whose status matches the spec
classification. -/
theorem c4_verify_task_status_witness :
    verify_task (fun _ => FileState.absent) "/p" "t1" [] =
      .ok ⟨"t1", .INCOMPLETE, [], [], []⟩
  ∧ (⟨"t1", .INCOMPLETE, [], [], []⟩ : VerificationResult).status =
      statusSpec [] [] [] :=
  ⟨rfl, c4_verify_task_status (fun _ => FileState.absent) "/p" "t1" []
    ⟨"t1", .INCOMPLETE, [], [], []⟩ rfl⟩

/-- Counterexample to C8 as stated: a task listing an artifact whose file
exists but cannot be read makes `verify_task` raise — the `OSError` from
`read_text` propagates to the caller, rather than the artifact being marked
failed. -/
theorem c8_counterexample_unreadable_artifact :
    verify_task
      (fun p => if p = "/proj/a.py" then FileState.unreadable else FileState.absent)
      "/proj" "t1" "Artifacts:\n- a.py".data = .error .osError := rfl

theorem check_artifact_substance_ok (fs : FileSys) (q : String)
    (h : fs q ≠ .unreadable) : ∃ a, check_artifact_substance fs q = .ok a := by
  unfold check_artifact_substance
  cases hq : fs q with
  | absent => exact ⟨_, rfl⟩
  | unreadable => exact absurd hq h
  | readable content => exact ⟨_, rfl⟩

theorem check_artifact_exists_iff (fs : FileSys) (q : String)
    (a : ArtifactResult) (h : check_artifact_substance fs q = .ok a) :
    (a.exists_ = false ↔ fs a.path = .absent) := by
  unfold check_artifact_substance at h
  cases hq : fs q with
  | absent =>
    rw [hq] at h
    simp only [Except.ok.injEq] at h
    subst h
    simp [hq]
  | unreadable =>
    rw [hq] at h
    cases h
  | readable content =>
    rw [hq] at h
    dsimp only at h
    simp only [Except.ok.injEq] at h
    subst h
    simp [hq]

/-- C8 (amended): a listed artifact whose file is missing never raises —
whenever no file is in the unreadable state, `verify_task` returns a
result; and in any returned result, an artifact is marked not-existing
exactly when its file is absent (so missing artifacts are recorded and the
rest of the verification still runs).  An artifact whose file exists but
cannot be read, by contrast, makes `verify_task` propagate the `OSError`
(see the counterexample) — the source has no handler. -/
theorem c8_filesystem_error_propagation (fs : FileSys) (root id : String)
    (d : List Char) :
    ((∀ p, fs p ≠ .unreadable) → ∃ r, verify_task fs root id d = .ok r)
  ∧ (∀ r, verify_task fs root id d = .ok r →
      ∀ a ∈ r.artifacts, (a.exists_ = false ↔ fs a.path = .absent)) := by
  constructor
  · intro hnope
    unfold verify_task
    dsimp only
    obtain ⟨arts, harts⟩ := mapExceptList_ok_of_all
      (fun p => check_artifact_substance fs (root ++ "/" ++ String.mk p))
      (match searchCriteriaBlock labelArtifacts d with
       | some g => bulletTexts g
       | none => [])
      (fun x _ => check_artifact_substance_ok fs _ (hnope _))
    rw [harts, except_ok_bind]
    exact ⟨_, rfl⟩
  · intro r h a ha
    unfold verify_task at h
    dsimp only at h
    cases hm : mapExceptList
        (fun p => check_artifact_substance fs (root ++ "/" ++ String.mk p))
        (match searchCriteriaBlock labelArtifacts d with
         | some g => bulletTexts g
         | none => []) with
    | error e =>
      rw [hm, except_error_bind] at h
      cases h
    | ok arts =>
      rw [hm, except_ok_bind] at h
      simp only [except_pure_eq, Except.ok.injEq] at h
      subst h
      obtain ⟨x, -, hfx⟩ := mapExceptList_mem _ _ _ hm a ha
      exact check_artifact_exists_iff fs _ a hfx

/-- Witness for C8 (amended): over a filesystem with no unreadable files,
the verification of a task listing one (missing) artifact returns a result
without raising. -/
theorem c8_filesystem_error_propagation_witness :
    ∃ r, verify_task (fun _ => FileState.absent) "/proj" "t1"
      "Artifacts:\n- a.py".data = .ok r :=
  (c8_filesystem_error_propagation (fun _ => FileState.absent) "/proj" "t1"
    "Artifacts:\n- a.py".data).1 (fun _ h => FileState.noConfusion h)

/-! ## Dependency validation (`check_dependencies`, `plan_validation.py`) -/

/-- The task shape consumed by `check_dependencies`: id with `blocks` /
`blockedBy` reference lists. -/
structure VTask where
  id : String
  blockedBy : List String := []
  blocks : List String := []
deriving DecidableEq, Repr

/-- `DependencyResult` dataclass from `plan_validation.py`. -/
structure DependencyResult where
  is_valid : Bool
  has_cycles : Bool
  missing_refs : List String
  cycles : List String
deriving DecidableEq, Repr

def taskIds (tasks : List VTask) : List String := tasks.map (fun t => t.id)

/-- One `blockedBy`/`blocks` entry of the scan of lines 213-228: a
self-reference records a cycle string and raises the flag; an unknown id is
recorded as missing; otherwise nothing changes here (the valid `blockedBy`
edges are collected separately in `adj`).  The accumulator is
(cycles, missing_refs, has_cycles). -/
def depStep (ids : List String) (tid : String)
    (acc : List String × List String × Bool) (dep : String) :
    List String × List String × Bool :=
  if dep = tid then (acc.1 ++ [tid ++ " references itself"], acc.2.1, true)
  else if !(ids.contains dep) then (acc.1, acc.2.1 ++ [dep], acc.2.2)
  else acc

/-- One task of the scan (lines 204-228): `blockedBy` entries first, then
`blocks` entries. -/
def selfMissingStep (ids : List String) (acc : List String × List String × Bool)
    (t : VTask) : List String × List String × Bool :=
  t.blocks.foldl (depStep ids t.id) (t.blockedBy.foldl (depStep ids t.id) acc)

/-- The full self-reference/missing-reference scan. -/
def selfMissing (tasks : List VTask) : List String × List String × Bool :=
  tasks.foldl (selfMissingStep (taskIds tasks)) ([], [], false)

/-- The adjacency map of lines 202-220: for each task id, its valid
non-self `blockedBy` references (the source stores a Python `set`; the
model keeps first-insertion order, on which nothing depends). -/
def adj (tasks : List VTask) (a : String) : List String :=
  ((((tasks.filter (fun t => t.id = a)).map (fun t => t.blockedBy)).flatten).filter
    (fun dep => !(dep == a) && (taskIds tasks).contains dep)).dedup

mutual

/-- `has_cycle_from` (lines 231-246): recursion-path check, global visited
check, then the neighbor loop.  Returns (found, visited, cycle strings);
`fuel` bounds the recursion depth (one unit per nesting level; with fuel
exceeding the number of distinct node ids the zero case is unreachable,
which the completeness lemma below makes precise). -/
def dfsVisit (g : String → List String) : Nat → String → List String →
    List String → Bool × List String × List String
  | 0, _, visited, _ => (false, visited, [])
  | fuel + 1, start, visited, path =>
    if path.contains start then (true, visited, [])
    else if visited.contains start then (false, visited, [])
    else dfsNeighbors g fuel start (g start) (start :: visited) (start :: path)
termination_by fuel _ _ _ => (fuel, 0)

/-- The `for neighbor in graph.get(start, set())` loop: on a found cycle the
frame appends its `"start -> neighbor (cycle)"` string (so the strings read
innermost-first, as the Python appends do) and returns immediately. -/
def dfsNeighbors (g : String → List String) : Nat → String → List String →
    List String → List String → Bool × List String × List String
  | _, _, [], visited, _ => (false, visited, [])
  | fuel, start, n :: ns, visited, path =>
    match dfsVisit g fuel n visited path with
    | (true, v, cs) => (true, v, cs ++ [start ++ " -> " ++ n ++ " (cycle)"])
    | (false, v, _) => dfsNeighbors g fuel start ns v path
termination_by fuel _ ns _ _ => (fuel, ns.length + 1)

end

/-- The outer `for task_id in graph` loop (lines 248-252): visited persists
across roots, the first found cycle stops the search. -/
def dfsAll (g : String → List String) (fuel : Nat) :
    List String → List String → Bool × List String
  | [], _ => (false, [])
  | k :: ks, visited =>
    match dfsVisit g fuel k visited [] with
    | (true, _, cs) => (true, cs)
    | (false, v, _) => dfsAll g fuel ks v

/-- The DFS over the graph keys (every task id, in first-insertion order). -/
def dfsResult (tasks : List VTask) : Bool × List String :=
  dfsAll (adj tasks) ((taskIds tasks).dedup.length + 1) (taskIds tasks).dedup []

/-- `check_dependencies` from `plan_validation.py` (lines 180-261).
`missing_refs = list(set(missing_refs))` is modelled as first-occurrence
de-duplication (Python set order is arbitrary); `is_valid` tests emptiness
of the un-deduplicated list, which is equivalent. -/
def check_dependencies (tasks : List VTask) : DependencyResult :=
  let sm := selfMissing tasks
  let df := dfsResult tasks
  let has_cycles := sm.2.2 || df.1
  { is_valid := !has_cycles && sm.2.1.isEmpty,
    has_cycles := has_cycles,
    missing_refs := sm.2.1.dedup,
    cycles := sm.1 ++ df.2 }

/-- The `blockedBy` edge relation of the claim: an edge from each task to
every entry of its `blockedBy` list. -/
def blockedByEdge (tasks : List VTask) (a b : String) : Prop :=
  ∃ t ∈ tasks, t.id = a ∧ b ∈ t.blockedBy

/-- The claim's cycle property: the graph induced by `blockedBy` edges
contains a cycle (equivalently, a cycle reachable from some node). -/
def hasBlockedByCycle (tasks : List VTask) : Prop :=
  ∃ a, Relation.TransGen (blockedByEdge tasks) a a

/-- The adjacency relation of the DFS graph the code actually builds. -/
def adjRel (tasks : List VTask) (a b : String) : Prop := b ∈ adj tasks a

theorem depStep_flag (ids : List String) (tid : String) :
    ∀ (deps : List String) (acc : List String × List String × Bool),
      (deps.foldl (depStep ids tid) acc).2.2 =
        (acc.2.2 || deps.any (fun dep => dep == tid)) := by
  intro deps
  induction deps with
  | nil => intro acc; simp
  | cons d deps ih =>
    intro acc
    simp only [List.foldl_cons, List.any_cons]
    rw [ih]
    by_cases hd : d = tid
    · simp [depStep, hd]
    · have hbd : (d == tid) = false := by simp [hd]
      simp only [hbd, Bool.false_or]
      unfold depStep
      rw [if_neg hd]
      split_ifs <;> rfl

theorem selfMissingStep_flag (ids : List String) (t : VTask)
    (acc : List String × List String × Bool) :
    (selfMissingStep ids acc t).2.2 =
      (acc.2.2 || (t.blockedBy.any (fun dep => dep == t.id) ||
                   t.blocks.any (fun dep => dep == t.id))) := by
  unfold selfMissingStep
  rw [depStep_flag, depStep_flag, Bool.or_assoc]

theorem selfMissing_flag (ids : List String) :
    ∀ (tasks : List VTask) (acc : List String × List String × Bool),
      (tasks.foldl (selfMissingStep ids) acc).2.2 =
        (acc.2.2 || tasks.any (fun t =>
          t.blockedBy.any (fun dep => dep == t.id) ||
          t.blocks.any (fun dep => dep == t.id))) := by
  intro tasks
  induction tasks with
  | nil => intro acc; simp
  | cons t tasks ih =>
    intro acc
    simp only [List.foldl_cons, List.any_cons]
    rw [ih, selfMissingStep_flag, Bool.or_assoc]

theorem selfMissing_flag_iff (tasks : List VTask) :
    (selfMissing tasks).2.2 = true ↔
      ∃ t ∈ tasks, t.id ∈ t.blockedBy ∨ t.id ∈ t.blocks := by
  unfold selfMissing
  rw [selfMissing_flag]
  simp only [Bool.false_or, List.any_eq_true, Bool.or_eq_true, beq_iff_eq]
  constructor
  · rintro ⟨t, ht, h⟩
    refine ⟨t, ht, ?_⟩
    rcases h with ⟨d, hd, rfl⟩ | ⟨d, hd, rfl⟩
    · exact Or.inl hd
    · exact Or.inr hd
  · rintro ⟨t, ht, h⟩
    refine ⟨t, ht, ?_⟩
    rcases h with h | h
    · exact Or.inl ⟨t.id, h, rfl⟩
    · exact Or.inr ⟨t.id, h, rfl⟩

theorem depStep_cycles_mono (ids : List String) (tid : String) :
    ∀ (deps : List String) (acc : List String × List String × Bool) (s : String),
      s ∈ acc.1 → s ∈ (deps.foldl (depStep ids tid) acc).1 := by
  intro deps
  induction deps with
  | nil => intro acc s hs; exact hs
  | cons d deps ih =>
    intro acc s hs
    simp only [List.foldl_cons]
    apply ih
    unfold depStep
    split_ifs <;> simp [hs]

theorem depStep_cycles_mem (ids : List String) (tid : String) :
    ∀ (deps : List String) (acc : List String × List String × Bool),
      tid ∈ deps →
      (tid ++ " references itself") ∈ (deps.foldl (depStep ids tid) acc).1 := by
  intro deps
  induction deps with
  | nil => intro acc h; cases h
  | cons d deps ih =>
    intro acc h
    simp only [List.foldl_cons]
    by_cases hd : d = tid
    · apply depStep_cycles_mono
      simp [depStep, hd]
    · rcases List.mem_cons.mp h with rfl | hmem
      · exact absurd rfl hd
      · exact ih _ hmem

theorem selfMissingStep_cycles_mono (ids : List String)
    (acc : List String × List String × Bool) (t : VTask) (s : String)
    (hs : s ∈ acc.1) : s ∈ (selfMissingStep ids acc t).1 := by
  unfold selfMissingStep
  exact depStep_cycles_mono ids t.id _ _ _ (depStep_cycles_mono ids t.id _ _ _ hs)

theorem selfMissing_foldl_cycles_mono (ids : List String) :
    ∀ (tasks : List VTask) (acc : List String × List String × Bool) (s : String),
      s ∈ acc.1 → s ∈ (tasks.foldl (selfMissingStep ids) acc).1 := by
  intro tasks
  induction tasks with
  | nil => intro acc s hs; exact hs
  | cons t tasks ih =>
    intro acc s hs
    exact ih _ s (selfMissingStep_cycles_mono ids acc t s hs)

theorem selfMissing_cycles_mem (ids : List String) :
    ∀ (tasks : List VTask) (acc : List String × List String × Bool) (t : VTask),
      t ∈ tasks → t.id ∈ t.blocks →
      (t.id ++ " references itself") ∈ (tasks.foldl (selfMissingStep ids) acc).1 := by
  intro tasks
  induction tasks with
  | nil => intro acc t ht; cases ht
  | cons u tasks ih =>
    intro acc t ht hb
    rcases List.mem_cons.mp ht with rfl | hmem
    · simp only [List.foldl_cons]
      apply selfMissing_foldl_cycles_mono
      unfold selfMissingStep
      exact depStep_cycles_mem ids t.id _ _ hb
    · exact ih _ t hmem hb

theorem dfsNeighbors_sound_of_visit (g : String → List String) (f : Nat)
    (hvisit : ∀ start visited path,
      (∀ p ∈ path, Relation.TransGen (fun a b => b ∈ g a) p start) →
      (dfsVisit g f start visited path).1 = true →
      ∃ b, Relation.TransGen (fun a b => b ∈ g a) b b) :
    ∀ (start : String) (ns : List String),
      ∀ (visited path0 : List String),
        ns ⊆ g start →
        (∀ p ∈ path0, Relation.TransGen (fun a b => b ∈ g a) p start) →
        (dfsNeighbors g f start ns visited (start :: path0)).1 = true →
        ∃ b, Relation.TransGen (fun a b => b ∈ g a) b b := by
  intro start ns
  induction ns with
  | nil =>
    intro visited path0 _ _ h
    simp [dfsNeighbors] at h
  | cons n ns ih =>
    intro visited path0 hsub hinv h
    have hn : n ∈ g start := hsub (by simp)
    have hinv2 : ∀ p ∈ start :: path0,
        Relation.TransGen (fun a b => b ∈ g a) p n := by
      intro p hp
      rcases List.mem_cons.mp hp with rfl | hp0
      · exact Relation.TransGen.single hn
      · exact (hinv p hp0).tail hn
    unfold dfsNeighbors at h
    cases hv : dfsVisit g f n visited (start :: path0) with
    | mk b tl =>
      obtain ⟨v, cs⟩ := tl
      rw [hv] at h
      cases b with
      | true => exact hvisit n visited (start :: path0) hinv2 (by rw [hv])
      | false =>
        dsimp only at h
        exact ih v path0 (fun x hx => hsub (List.mem_cons_of_mem _ hx)) hinv h

theorem dfsVisit_sound (g : String → List String) :
    ∀ (fuel : Nat) (start : String) (visited path : List String),
      (∀ p ∈ path, Relation.TransGen (fun a b => b ∈ g a) p start) →
      (dfsVisit g fuel start visited path).1 = true →
      ∃ b, Relation.TransGen (fun a b => b ∈ g a) b b := by
  intro fuel
  induction fuel with
  | zero =>
    intro start visited path _ h
    simp [dfsVisit] at h
  | succ f ih =>
    intro start visited path hinv h
    unfold dfsVisit at h
    by_cases hp : path.contains start = true
    · have hmem : start ∈ path := by simpa using hp
      exact ⟨start, hinv start hmem⟩
    · by_cases hv : visited.contains start = true
      · rw [if_neg hp, if_pos hv] at h
        cases h
      · rw [if_neg hp, if_neg hv] at h
        exact dfsNeighbors_sound_of_visit g f ih start (g start)
          (start :: visited) path (fun x hx => hx) hinv h

theorem dfsAll_sound (g : String → List String) (fuel : Nat) :
    ∀ (ks visited : List String),
      (dfsAll g fuel ks visited).1 = true →
      ∃ b, Relation.TransGen (fun a b => b ∈ g a) b b := by
  intro ks
  induction ks with
  | nil =>
    intro visited h
    simp [dfsAll] at h
  | cons k ks ih =>
    intro visited h
    unfold dfsAll at h
    cases hv : dfsVisit g fuel k visited [] with
    | mk b tl =>
      obtain ⟨v, cs⟩ := tl
      rw [hv] at h
      cases b with
      | true => exact dfsVisit_sound g fuel k visited [] (by simp) (by rw [hv])
      | false =>
        dsimp only at h
        exact ih v h

/-- A node from which a cycle is reachable. -/
def reachesCycle (g : String → List String) (v : String) : Prop :=
  ∃ c, Relation.ReflTransGen (fun a b => b ∈ g a) v c ∧
       Relation.TransGen (fun a b => b ∈ g a) c c

theorem reachesCycle_step (g : String → List String) (start : String)
    (h : reachesCycle g start) : ∃ n ∈ g start, reachesCycle g n := by
  obtain ⟨c, hrc, hcc⟩ := h
  rcases Relation.ReflTransGen.cases_head hrc with heq | ⟨m, hm, hmc⟩
  · subst heq
    rcases Relation.TransGen.head'_iff.mp hcc with ⟨n, hn, hns⟩
    exact ⟨n, hn, ⟨start, hns, hcc⟩⟩
  · exact ⟨m, hm, ⟨c, hmc, hcc⟩⟩

theorem nodup_subset_length_le (l nodes : List String) (hl : l.Nodup)
    (hsub : ∀ x ∈ l, x ∈ nodes) : l.length ≤ nodes.length := by
  have h1 : l.toFinset.card = l.length := List.toFinset_card_of_nodup hl
  have h2 : l.toFinset ⊆ nodes.toFinset := by
    intro x hx
    rw [List.mem_toFinset] at *
    exact hsub x hx
  have h3 := Finset.card_le_card h2
  have h4 : nodes.toFinset.card ≤ nodes.length := List.toFinset_card_le nodes
  omega

theorem dfs_complete_neighbors (g : String → List String) (nodes : List String)
    (hg : ∀ a b, b ∈ g a → b ∈ nodes) (f : Nat)
    (hvisit : ∀ (start : String) (visited path : List String),
      nodes.length + 1 ≤ f + path.length →
      path.Nodup → (∀ p ∈ path, p ∈ nodes) → start ∈ nodes →
      (∀ x ∈ visited, x ∈ path ∨ ¬ reachesCycle g x) →
      (dfsVisit g f start visited path).1 = false →
      start ∉ path ∧
      visited ⊆ (dfsVisit g f start visited path).2.1 ∧
      start ∈ (dfsVisit g f start visited path).2.1 ∧
      (∀ x ∈ (dfsVisit g f start visited path).2.1,
        x ∈ path ∨ ¬ reachesCycle g x)) :
    ∀ (start : String) (ns visited pathx : List String),
      ns ⊆ g start →
      nodes.length + 1 ≤ f + pathx.length →
      pathx.Nodup → (∀ p ∈ pathx, p ∈ nodes) →
      (∀ x ∈ visited, x ∈ pathx ∨ ¬ reachesCycle g x) →
      (dfsNeighbors g f start ns visited pathx).1 = false →
      visited ⊆ (dfsNeighbors g f start ns visited pathx).2.1 ∧
      (∀ n ∈ ns, n ∈ (dfsNeighbors g f start ns visited pathx).2.1 ∧ n ∉ pathx) ∧
      (∀ x ∈ (dfsNeighbors g f start ns visited pathx).2.1,
        x ∈ pathx ∨ ¬ reachesCycle g x) := by
  intro start ns
  induction ns with
  | nil =>
    intro visited pathx _ _ _ _ hok h
    simp only [dfsNeighbors]
    exact ⟨fun x hx => hx, by simp, hok⟩
  | cons n ns ih =>
    intro visited pathx hsub hfuel hnd hpn hok h
    cases hv : dfsVisit g f n visited pathx with
    | mk b tl =>
      obtain ⟨v, cs⟩ := tl
      cases b with
      | true =>
        simp only [dfsNeighbors, hv] at h
        cases h
      | false =>
        simp only [dfsNeighbors, hv] at h ⊢
        have hc := hvisit n visited pathx hfuel hnd hpn
          (hg start n (hsub (by simp))) hok (by rw [hv])
        rw [hv] at hc
        obtain ⟨hnp, hsubv, hnv, hokv⟩ := hc
        have hrest := ih v pathx (fun x hx => hsub (List.mem_cons_of_mem _ hx))
          hfuel hnd hpn hokv h
        obtain ⟨hsub2, hns2, hok2⟩ := hrest
        refine ⟨fun x hx => hsub2 (hsubv hx), ?_, hok2⟩
        intro m hm
        rcases List.mem_cons.mp hm with rfl | hm2
        · exact ⟨hsub2 hnv, hnp⟩
        · exact hns2 m hm2

theorem dfs_complete_visit (g : String → List String) (nodes : List String)
    (hg : ∀ a b, b ∈ g a → b ∈ nodes) :
    ∀ (f : Nat) (start : String) (visited path : List String),
      nodes.length + 1 ≤ f + path.length →
      path.Nodup → (∀ p ∈ path, p ∈ nodes) → start ∈ nodes →
      (∀ x ∈ visited, x ∈ path ∨ ¬ reachesCycle g x) →
      (dfsVisit g f start visited path).1 = false →
      start ∉ path ∧
      visited ⊆ (dfsVisit g f start visited path).2.1 ∧
      start ∈ (dfsVisit g f start visited path).2.1 ∧
      (∀ x ∈ (dfsVisit g f start visited path).2.1,
        x ∈ path ∨ ¬ reachesCycle g x) := by
  intro f
  induction f with
  | zero =>
    intro start visited path hfuel hnd hpn _ _ _
    exfalso
    have := nodup_subset_length_le path nodes hnd hpn
    omega
  | succ f ih =>
    intro start visited path hfuel hnd hpn hs hok h
    by_cases hp : path.contains start = true
    · simp only [dfsVisit, if_pos hp] at h
      cases h
    · have hpmem : start ∉ path := by simpa using hp
      by_cases hv : visited.contains start = true
      · simp only [dfsVisit, if_neg hp, if_pos hv] at h ⊢
        exact ⟨hpmem, fun x hx => hx, by simpa using hv, hok⟩
      · simp only [dfsVisit, if_neg hp, if_neg hv] at h ⊢
        have hfuel2 : nodes.length + 1 ≤ f + (start :: path).length := by
          simp only [List.length_cons]
          omega
        have hnd2 : (start :: path).Nodup := by
          simp [List.nodup_cons, hpmem, hnd]
        have hpn2 : ∀ p ∈ start :: path, p ∈ nodes := by
          intro p hp2
          rcases List.mem_cons.mp hp2 with rfl | hp3
          · exact hs
          · exact hpn p hp3
        have hok2 : ∀ x ∈ start :: visited, x ∈ start :: path ∨ ¬ reachesCycle g x := by
          intro x hx
          rcases List.mem_cons.mp hx with rfl | hx2
          · exact Or.inl (by simp)
          · rcases hok x hx2 with hl | hr
            · exact Or.inl (List.mem_cons_of_mem _ hl)
            · exact Or.inr hr
        have hres := dfs_complete_neighbors g nodes hg f ih start (g start)
          (start :: visited) (start :: path) (fun x hx => hx) hfuel2 hnd2 hpn2 hok2 h
        obtain ⟨hsub2, hns2, hok3⟩ := hres
        have hnostart : ¬ reachesCycle g start := by
          intro hreach
          obtain ⟨n, hn, hreachn⟩ := reachesCycle_step g start hreach
          obtain ⟨hnfinal, hnnotpath⟩ := hns2 n hn
          rcases hok3 n hnfinal with hin | hnreach
          · exact hnnotpath hin
          · exact hnreach hreachn
        refine ⟨hpmem, fun x hx => hsub2 (List.mem_cons_of_mem _ hx),
          hsub2 (by simp), ?_⟩
        intro x hx
        rcases hok3 x hx with hin | hnreach
        · rcases List.mem_cons.mp hin with rfl | hin2
          · exact Or.inr hnostart
          · exact Or.inl hin2
        · exact Or.inr hnreach

theorem dfsAll_complete (g : String → List String) (nodes : List String)
    (hg : ∀ a b, b ∈ g a → b ∈ nodes) (fuel : Nat)
    (hfuel : nodes.length + 1 ≤ fuel) :
    ∀ (ks visited : List String),
      (∀ k ∈ ks, k ∈ nodes) →
      (∀ x ∈ visited, ¬ reachesCycle g x) →
      (dfsAll g fuel ks visited).1 = false →
      ∀ k ∈ ks, ¬ reachesCycle g k := by
  intro ks
  induction ks with
  | nil =>
    intro visited _ _ _ k hk
    cases hk
  | cons k0 ks ih =>
    intro visited hks hok h k hk
    simp only [dfsAll] at h
    cases hv : dfsVisit g fuel k0 visited [] with
    | mk b tl =>
      obtain ⟨v, cs⟩ := tl
      rw [hv] at h
      cases b with
      | true => cases h
      | false =>
        dsimp only at h
        have hres := dfs_complete_visit g nodes hg fuel k0 visited []
          (by simpa using hfuel) (by simp) (by simp) (hks k0 (by simp))
          (fun x hx => Or.inr (hok x hx)) (by rw [hv])
        rw [hv] at hres
        obtain ⟨-, hsubv, hk0v, hokv⟩ := hres
        have hokv2 : ∀ x ∈ v, ¬ reachesCycle g x := by
          intro x hx
          rcases hokv x hx with hfalse | hn
          · cases hfalse
          · exact hn
        rcases List.mem_cons.mp hk with rfl | hk2
        · exact hokv2 k hk0v
        · exact ih v (fun x hx => hks x (by simp [hx])) hokv2 h k hk2

theorem adj_target_mem (tasks : List VTask) (a b : String)
    (h : b ∈ adj tasks a) : b ∈ (taskIds tasks).dedup := by
  unfold adj at h
  rw [List.mem_dedup, List.mem_filter] at h
  have hb := h.2
  simp only [Bool.and_eq_true] at hb
  rw [List.mem_dedup]
  simpa using hb.2

theorem adj_source_mem (tasks : List VTask) (a b : String)
    (h : b ∈ adj tasks a) : a ∈ (taskIds tasks).dedup := by
  unfold adj at h
  rw [List.mem_dedup, List.mem_filter] at h
  have hj := h.1
  rw [List.mem_flatten] at hj
  obtain ⟨bb, hbb, hbmem⟩ := hj
  rw [List.mem_map] at hbb
  obtain ⟨t, ht, rfl⟩ := hbb
  rw [List.mem_filter] at ht
  have hid : t.id = a := by simpa using ht.2
  rw [List.mem_dedup]
  unfold taskIds
  rw [List.mem_map]
  exact ⟨t, ht.1, hid⟩

theorem dfsResult_true_iff (tasks : List VTask) :
    (dfsResult tasks).1 = true ↔
      ∃ b, Relation.TransGen (adjRel tasks) b b := by
  constructor
  · intro h
    unfold dfsResult at h
    obtain ⟨b, hb⟩ := dfsAll_sound (adj tasks) _ _ _ h
    exact ⟨b, hb⟩
  · rintro ⟨b, hb⟩
    by_contra hfalse
    have h : (dfsResult tasks).1 = false := by
      cases hres : (dfsResult tasks).1
      · rfl
      · exact absurd hres hfalse
    unfold dfsResult at h
    have hbmem : b ∈ (taskIds tasks).dedup := by
      rcases Relation.TransGen.head'_iff.mp hb with ⟨m, hm, -⟩
      exact adj_source_mem tasks b m hm
    have hcomp := dfsAll_complete (adj tasks) ((taskIds tasks).dedup)
      (fun x c hc => adj_target_mem tasks x c hc)
      ((taskIds tasks).dedup.length + 1) (le_refl _)
      ((taskIds tasks).dedup) [] (fun k hk => hk) (by simp) h
    exact hcomp b hbmem ⟨b, Relation.ReflTransGen.refl, hb⟩

/-- Nonempty relational path: `isRPath R a l` says consecutive steps of
`a :: l` are `R`-related. -/
def isRPath (R : String → String → Prop) : String → List String → Prop
  | _, [] => True
  | a, b :: l => R a b ∧ isRPath R b l

theorem isRPath_append_single (R : String → String → Prop) :
    ∀ (l : List String) (a y z : String),
      isRPath R a (l ++ [y]) → R y z → isRPath R a ((l ++ [y]) ++ [z]) := by
  intro l
  induction l with
  | nil =>
    intro a y z hp hyz
    exact ⟨hp.1, hyz, trivial⟩
  | cons x l ih =>
    intro a y z hp hyz
    exact ⟨hp.1, ih x y z hp.2 hyz⟩

theorem transGen_iff_isRPath (R : String → String → Prop) (a b : String) :
    Relation.TransGen R a b ↔ ∃ l, isRPath R a (l ++ [b]) := by
  constructor
  · intro h
    induction h with
    | single e => exact ⟨[], e, trivial⟩
    | tail h e ih =>
      obtain ⟨l, hp⟩ := ih
      exact ⟨l ++ [_], isRPath_append_single R l a _ _ hp e⟩
  · rintro ⟨l, hp⟩
    induction l generalizing a with
    | nil => exact Relation.TransGen.single hp.1
    | cons x l ih => exact Relation.TransGen.head hp.1 (ih x hp.2)

theorem blockedByEdge_source_mem (tasks : List VTask) (a b : String)
    (h : blockedByEdge tasks a b) : a ∈ taskIds tasks := by
  obtain ⟨t, ht, hid, -⟩ := h
  exact List.mem_map.mpr ⟨t, ht, hid⟩

theorem adjRel_iff (tasks : List VTask) (a b : String) :
    adjRel tasks a b ↔
      (blockedByEdge tasks a b ∧ b ≠ a ∧ b ∈ taskIds tasks) := by
  unfold adjRel adj blockedByEdge
  rw [List.mem_dedup, List.mem_filter]
  simp only [List.mem_flatten, List.mem_map, List.mem_filter, Bool.and_eq_true,
    Bool.not_eq_true', beq_eq_false_iff_ne, decide_eq_true_eq,
    List.contains, List.elem_eq_mem]
  constructor
  · rintro ⟨⟨bb, ⟨t, ⟨ht, hid⟩, rfl⟩, hbmem⟩, hne, hcont⟩
    exact ⟨⟨t, ht, hid, hbmem⟩, hne, by simpa using hcont⟩
  · rintro ⟨⟨t, ht, hid, hbmem⟩, hne, hmem⟩
    exact ⟨⟨t.blockedBy, ⟨t, ⟨ht, hid⟩, rfl⟩, hbmem⟩, hne, by simpa using hmem⟩

theorem path_E_to_A (tasks : List VTask)
    (hnsl : ∀ t ∈ tasks, t.id ∉ t.blockedBy) :
    ∀ (l : List String) (a z : String),
      isRPath (blockedByEdge tasks) a (l ++ [z]) → z ∈ taskIds tasks →
      isRPath (adjRel tasks) a (l ++ [z]) := by
  have hne : ∀ x y, blockedByEdge tasks x y → x ≠ y := by
    rintro x y ⟨t, ht, hid, hy⟩ heq
    subst heq
    subst hid
    exact hnsl t ht hy
  intro l
  induction l with
  | nil =>
    intro a z hp hz
    exact ⟨(adjRel_iff tasks a z).mpr ⟨hp.1, Ne.symm (hne a z hp.1), hz⟩, trivial⟩
  | cons x l ih =>
    intro a z hp hz
    obtain ⟨hax, hrest⟩ := hp
    have hxid : x ∈ taskIds tasks := by
      cases l with
      | nil => exact blockedByEdge_source_mem tasks x z hrest.1
      | cons y l2 => exact blockedByEdge_source_mem tasks x y hrest.1
    exact ⟨(adjRel_iff tasks a x).mpr ⟨hax, Ne.symm (hne a x hax), hxid⟩,
      ih x z hrest hz⟩

theorem hasBlockedByCycle_iff (tasks : List VTask) :
    hasBlockedByCycle tasks ↔
      ((∃ t ∈ tasks, t.id ∈ t.blockedBy) ∨
       ∃ b, Relation.TransGen (adjRel tasks) b b) := by
  constructor
  · rintro ⟨a, h⟩
    by_cases hsl : ∃ t ∈ tasks, t.id ∈ t.blockedBy
    · exact Or.inl hsl
    · right
      push_neg at hsl
      obtain ⟨l, hp⟩ := (transGen_iff_isRPath _ a a).mp h
      have ha : a ∈ taskIds tasks := by
        cases l with
        | nil => exact blockedByEdge_source_mem tasks a a hp.1
        | cons x l2 => exact blockedByEdge_source_mem tasks a x hp.1
      exact ⟨a, (transGen_iff_isRPath _ a a).mpr
        ⟨l, path_E_to_A tasks hsl l a a hp ha⟩⟩
  · rintro (⟨t, ht, hbb⟩ | ⟨b, hb⟩)
    · exact ⟨t.id, Relation.TransGen.single ⟨t, ht, rfl, hbb⟩⟩
    · exact ⟨b, Relation.TransGen.mono
        (fun x y hxy => ((adjRel_iff tasks x y).mp hxy).1) hb⟩

theorem check_dependencies_has_cycles_iff (tasks : List VTask) :
    (check_dependencies tasks).has_cycles = true ↔
      (hasBlockedByCycle tasks ∨ ∃ t ∈ tasks, t.id ∈ t.blocks) := by
  have hfield : (check_dependencies tasks).has_cycles =
      ((selfMissing tasks).2.2 || (dfsResult tasks).1) := rfl
  rw [hfield, Bool.or_eq_true, selfMissing_flag_iff, dfsResult_true_iff,
    hasBlockedByCycle_iff]
  constructor
  · rintro (⟨t, ht, hbb | hbl⟩ | hc)
    · exact Or.inl (Or.inl ⟨t, ht, hbb⟩)
    · exact Or.inr ⟨t, ht, hbl⟩
    · exact Or.inl (Or.inr hc)
  · rintro ((⟨t, ht, hbb⟩ | hc) | ⟨t, ht, hbl⟩)
    · exact Or.inl ⟨t, ht, Or.inl hbb⟩
    · exact Or.inr hc
    · exact Or.inl ⟨t, ht, Or.inr hbl⟩

/-- The non-cyclic diamond of the claim: A blockedBy B and C; B and C both
blockedBy D. -/
def diamondTasks : List VTask :=
  [⟨"A", ["B", "C"], []⟩, ⟨"B", ["D"], []⟩, ⟨"C", ["D"], []⟩, ⟨"D", [], []⟩]

def diamondRank (s : String) : Nat :=
  if s = "A" then 0
  else if s = "B" then 1
  else if s = "C" then 1
  else if s = "D" then 2
  else 3

theorem diamond_no_cycle : ¬ hasBlockedByCycle diamondTasks := by
  rintro ⟨a, h⟩
  have hmono : ∀ x y, blockedByEdge diamondTasks x y →
      diamondRank x < diamondRank y := by
    rintro x y ⟨t, ht, hid, hy⟩
    subst hid
    fin_cases ht <;> simp_all <;>
      rcases hy with rfl | rfl <;> decide
  have hlt : diamondRank a < diamondRank a := by
    have : ∀ b, Relation.TransGen (blockedByEdge diamondTasks) a b →
        diamondRank a < diamondRank b := by
      intro b hb
      induction hb with
      | single e => exact hmono _ _ e
      | tail h2 e ih => exact lt_trans ih (hmono _ _ e)
    exact this a h
  exact lt_irrefl _ hlt

theorem diamond_no_blocks_self : ¬ ∃ t ∈ diamondTasks, t.id ∈ t.blocks := by
  decide

theorem diamond_has_cycles_false :
    (check_dependencies diamondTasks).has_cycles = false := by
  rcases Bool.eq_false_or_eq_true (check_dependencies diamondTasks).has_cycles
    with ht | hf
  swap
  · exact hf
  · exfalso
    rcases (check_dependencies_has_cycles_iff diamondTasks).mp ht with hc | hb
    · exact diamond_no_cycle hc
    · exact diamond_no_blocks_self hb

/-- Counterexample to C2 as stated: for a task whose `blocks` list contains
its own id (and whose `blockedBy` list is empty), `check_dependencies`
reports `hasCycles = true` although the directed graph induced by the
`blockedBy` edges contains no cycle at all. -/
theorem c2_counterexample_blocks_self :
    (check_dependencies [⟨"t1", [], ["t1"]⟩]).has_cycles = true
  ∧ ¬ hasBlockedByCycle [⟨"t1", [], ["t1"]⟩] := by
  constructor
  · have hfield : (check_dependencies [⟨"t1", [], ["t1"]⟩]).has_cycles =
        ((selfMissing [⟨"t1", [], ["t1"]⟩]).2.2 ||
         (dfsResult [⟨"t1", [], ["t1"]⟩]).1) := rfl
    have hflag : (selfMissing [⟨"t1", [], ["t1"]⟩]).2.2 = true := rfl
    rw [hfield, hflag, Bool.true_or]
  · rintro ⟨a, h⟩
    have hnoedge : ∀ x y, ¬ blockedByEdge [⟨"t1", [], ["t1"]⟩] x y := by
      rintro x y ⟨t, ht, -, hy⟩
      simp only [List.mem_singleton] at ht
      subst ht
      cases hy
    cases h with
    | single e => exact hnoedge _ _ e
    | tail h2 e => exact hnoedge _ _ e

/-- C2 (amended): for every task list, `check_dependencies` reports
`hasCycles = true` iff the directed graph whose edges run from each task to
the entries of its `blockedBy` list contains a cycle, OR some task's
`blocks` list contains that task's own id (the self-reference scan also
covers `blocks` entries).  In particular the non-cyclic diamond
(A blockedBy B and C; B and C both blockedBy D) is not flagged and is
valid, while a task blocked by itself is flagged and invalid. -/
theorem c2_cycle_detection_correctness :
    (∀ tasks : List VTask, (check_dependencies tasks).has_cycles = true ↔
      (hasBlockedByCycle tasks ∨ ∃ t ∈ tasks, t.id ∈ t.blocks))
  ∧ (check_dependencies diamondTasks).has_cycles = false
  ∧ (check_dependencies diamondTasks).is_valid = true
  ∧ (check_dependencies [⟨"t1", ["t1"], []⟩]).has_cycles = true
  ∧ (check_dependencies [⟨"t1", ["t1"], []⟩]).is_valid = false := by
  have hself : (check_dependencies [⟨"t1", ["t1"], []⟩]).has_cycles = true :=
    (check_dependencies_has_cycles_iff _).mpr
      (Or.inl ⟨"t1", Relation.TransGen.single
        ⟨⟨"t1", ["t1"], []⟩, by simp, rfl, by simp⟩⟩)
  refine ⟨check_dependencies_has_cycles_iff, diamond_has_cycles_false, ?_,
    hself, ?_⟩
  · have hv : (check_dependencies diamondTasks).is_valid =
        (!(check_dependencies diamondTasks).has_cycles &&
         (selfMissing diamondTasks).2.1.isEmpty) := rfl
    rw [hv, diamond_has_cycles_false]
    decide
  · have hv : (check_dependencies [⟨"t1", ["t1"], []⟩]).is_valid =
        (!(check_dependencies [⟨"t1", ["t1"], []⟩]).has_cycles &&
         (selfMissing [⟨"t1", ["t1"], []⟩]).2.1.isEmpty) := rfl
    rw [hv, hself]
    rfl

/-- Witness for C2 (amended): the iff applied to a concrete self-blocked
task. -/
theorem c2_cycle_detection_correctness_witness :
    (check_dependencies [⟨"w2", ["w2"], []⟩]).has_cycles = true :=
  (c2_cycle_detection_correctness.1 _).mpr
    (Or.inl ⟨"w2", Relation.TransGen.single
      ⟨⟨"w2", ["w2"], []⟩, by simp, rfl, by simp⟩⟩)

/-- C10: if some task's `blocks` list contains its own id,
`check_dependencies` reports `hasCycles = true` and `isValid = false` and
records the self-reference cycle string — regardless of the rest of the
graph (in particular even when every `blockedBy` list is empty). -/
theorem c10_blocks_self_reference (tasks : List VTask)
    (h : ∃ t ∈ tasks, t.id ∈ t.blocks) :
    (check_dependencies tasks).has_cycles = true
  ∧ (check_dependencies tasks).is_valid = false
  ∧ ∃ t ∈ tasks, t.id ∈ t.blocks ∧
      (t.id ++ " references itself") ∈ (check_dependencies tasks).cycles := by
  have hflag : (selfMissing tasks).2.2 = true :=
    (selfMissing_flag_iff tasks).mpr
      (by obtain ⟨t, ht, hb⟩ := h; exact ⟨t, ht, Or.inr hb⟩)
  have hcy : (check_dependencies tasks).has_cycles = true := by
    have hfield : (check_dependencies tasks).has_cycles =
        ((selfMissing tasks).2.2 || (dfsResult tasks).1) := rfl
    rw [hfield, hflag, Bool.true_or]
  refine ⟨hcy, ?_, ?_⟩
  · have hv : (check_dependencies tasks).is_valid =
        (!(check_dependencies tasks).has_cycles &&
         (selfMissing tasks).2.1.isEmpty) := rfl
    rw [hv, hcy]
    rfl
  · obtain ⟨t, ht, hb⟩ := h
    refine ⟨t, ht, hb, ?_⟩
    have hcyc : (check_dependencies tasks).cycles =
        (selfMissing tasks).1 ++ (dfsResult tasks).2 := rfl
    rw [hcyc]
    exact List.mem_append_left _
      (selfMissing_cycles_mem (taskIds tasks) tasks ([], [], false) t ht hb)

/-- Witness for C10 at a concrete task that blocks itself. -/
theorem c10_blocks_self_reference_witness :
    (check_dependencies [⟨"t3", [], ["t3"]⟩]).has_cycles = true
  ∧ (check_dependencies [⟨"t3", [], ["t3"]⟩]).is_valid = false
  ∧ ∃ t ∈ [(⟨"t3", [], ["t3"]⟩ : VTask)], t.id ∈ t.blocks ∧
      (t.id ++ " references itself") ∈
        (check_dependencies [⟨"t3", [], ["t3"]⟩]).cycles :=
  c10_blocks_self_reference [⟨"t3", [], ["t3"]⟩]
    ⟨⟨"t3", [], ["t3"]⟩, by simp, by simp⟩

end DP
